import Mathlib

/-!
# Verification of the `ocs-custodian` URI parser (Amizade repository)

Shallow embedding of `src/ocs-custodian/src/lib.rs` (module `handler`:
`check_url`, `ParsedOcsUrl`, `Display for ParsedOcsUrl`, `Scheme`, `Command`,
`OcsParsingError`) and `src/ocs-custodian/src/types/install_type.rs`
(`PersonalMedia`, `Styling`, their `TryFrom<&str>` impls and
`InstallStrategy::get_install_path`).

`check_url` delegates to two external crates whose behaviour is part of its
semantics and is therefore embedded as well:

* `urlencoding` (`decode`, `encode`): byte-level percent decoding/encoding;
  `decode` leaves malformed escapes in place and fails only when the decoded
  byte sequence is not valid UTF-8 (`FromUtf8Error`).
* `url` (rust-url, a WHATWG URL implementation): `Url::parse`,
  `Url::query_pairs` (form-urlencoded parsing of the stored query) and
  `Url::as_str`.  The embedding covers the fragment of the WHATWG algorithm
  exercised by `ocs://`-style links and absolute `http(s)`-style download
  URLs: input trimming, scheme parsing and lowercasing, authority parsing
  (userinfo / host / port) for special and non-special schemes, empty opaque
  hosts being reported as absent (`host_str() == None`, rust-url's
  `HostInternal::None` for an empty host), path normalisation
  (dot segments, special-scheme slash handling), and component
  percent-encoding.  Not modelled (all mapped to parse errors or, for IDNA,
  to an error where rust-url would attempt unicode domain mapping): IPv4/IPv6
  host literals, non-ASCII domains, and Windows-drive `file:` quirks.
  Strings are processed at the character level; percent- and UTF-8 handling
  happen on the underlying byte sequences, as in Rust.
-/

/-- Decidable equality for `Except` results (Rust's derived `PartialEq`). -/
instance {ε α : Type} [DecidableEq ε] [DecidableEq α] : DecidableEq (Except ε α) := fun a b =>
  match a, b with
  | .error e, .error e' =>
    if h : e = e' then isTrue (h ▸ rfl)
    else isFalse (fun hh => h (by injection hh))
  | .ok v, .ok v' =>
    if h : v = v' then isTrue (h ▸ rfl)
    else isFalse (fun hh => h (by injection hh))
  | .error _, .ok _ => isFalse (fun hh => Except.noConfusion hh)
  | .ok _, .error _ => isFalse (fun hh => Except.noConfusion hh)

set_option maxRecDepth 100000

namespace Amizade

/-! ## Characters -/

/-- ASCII `A`–`Z`. -/
def isAsciiUpper (c : Char) : Bool := 0x41 ≤ c.toNat && c.toNat ≤ 0x5A

/-- ASCII `a`–`z`. -/
def isAsciiLower (c : Char) : Bool := 0x61 ≤ c.toNat && c.toNat ≤ 0x7A

/-- ASCII letter. -/
def isAsciiAlpha (c : Char) : Bool := isAsciiUpper c || isAsciiLower c

/-- ASCII digit. -/
def isAsciiDigit (c : Char) : Bool := 0x30 ≤ c.toNat && c.toNat ≤ 0x39

/-- ASCII letter or digit. -/
def isAsciiAlnum (c : Char) : Bool := isAsciiAlpha c || isAsciiDigit c

/-- ASCII lower-casing of one character (Rust's `str::to_lowercase` acts as
this on ASCII input; its non-ASCII unicode case mapping is outside the
modelled fragment). -/
def lowerChar (c : Char) : Char :=
  if isAsciiUpper c then Char.ofNat (c.toNat + 32) else c

/-- ASCII lower-casing of a string (`str::to_lowercase`). -/
def toLowerStr (s : String) : String := ⟨s.data.map lowerChar⟩

/-! ## UTF-8 bytes

Rust strings are UTF-8 byte sequences; percent coding operates on bytes.
Bytes are represented as `Nat` (< 256). -/

/-- UTF-8 encoding of one unicode scalar value. -/
def utf8EncodeChar (c : Char) : List Nat :=
  let n := c.toNat
  if n < 0x80 then [n]
  else if n < 0x800 then
    [0xC0 + n / 64, 0x80 + n % 64]
  else if n < 0x10000 then
    [0xE0 + n / 4096, 0x80 + (n / 64) % 64, 0x80 + n % 64]
  else
    [0xF0 + n / 262144, 0x80 + (n / 4096) % 64, 0x80 + (n / 64) % 64, 0x80 + n % 64]

/-- UTF-8 encoding of a character list. -/
def utf8Encode (l : List Char) : List Nat := l.flatMap utf8EncodeChar

/-- A UTF-8 continuation byte `0x80`–`0xBF`. -/
def isCont (b : Nat) : Bool := 0x80 ≤ b && b ≤ 0xBF

/-- Lead byte of a 2-byte UTF-8 sequence. -/
def isLead2 (b : Nat) : Bool := 0xC2 ≤ b && b ≤ 0xDF

/-- Lead byte of a 3-byte UTF-8 sequence. -/
def isLead3 (b : Nat) : Bool := 0xE0 ≤ b && b ≤ 0xEF

/-- Lead byte of a 4-byte UTF-8 sequence. -/
def isLead4 (b : Nat) : Bool := 0xF0 ≤ b && b ≤ 0xF4

/-- Valid second byte after a 3-byte lead (excludes overlongs and
surrogates: `E0` needs `A0`–`BF`, `ED` needs `80`–`9F`). -/
def cont3ok (b b2 : Nat) : Bool :=
  (if b = 0xE0 then 0xA0 else 0x80) ≤ b2 && b2 ≤ (if b = 0xED then 0x9F else 0xBF)

/-- Valid second byte after a 4-byte lead (`F0` needs `90`–`BF`, `F4` needs
`80`–`8F`). -/
def cont4ok (b b2 : Nat) : Bool :=
  (if b = 0xF0 then 0x90 else 0x80) ≤ b2 && b2 ≤ (if b = 0xF4 then 0x8F else 0xBF)

/-- Scalar value of a decoded 2-byte sequence. -/
def val2 (b b2 : Nat) : Char := Char.ofNat ((b - 0xC0) * 64 + (b2 - 0x80))

/-- Scalar value of a decoded 3-byte sequence. -/
def val3 (b b2 b3 : Nat) : Char :=
  Char.ofNat ((b - 0xE0) * 4096 + (b2 - 0x80) * 64 + (b3 - 0x80))

/-- Scalar value of a decoded 4-byte sequence. -/
def val4 (b b2 b3 b4 : Nat) : Char :=
  Char.ofNat ((b - 0xF0) * 262144 + (b2 - 0x80) * 4096 + (b3 - 0x80) * 64 + (b4 - 0x80))

mutual

/-- Strict UTF-8 decoding (Rust `String::from_utf8`): `none` on any invalid
sequence (stray continuation, overlong form, surrogate, value > U+10FFFF,
truncated sequence). Split into one function per sequence length. -/
def utf8Decode : List Nat → Option (List Char)
  | [] => some []
  | b :: rest =>
    if b < 0x80 then (utf8Decode rest).map (Char.ofNat b :: ·)
    else if isLead2 b then utf8Dec2 b rest
    else if isLead3 b then utf8Dec3 b rest
    else if isLead4 b then utf8Dec4 b rest
    else none

def utf8Dec2 (b : Nat) : List Nat → Option (List Char)
  | b2 :: rest2 =>
    if isCont b2 then (utf8Decode rest2).map (val2 b b2 :: ·) else none
  | [] => none

def utf8Dec3 (b : Nat) : List Nat → Option (List Char)
  | b2 :: b3 :: rest3 =>
    if cont3ok b b2 && isCont b3 then (utf8Decode rest3).map (val3 b b2 b3 :: ·)
    else none
  | _ => none

def utf8Dec4 (b : Nat) : List Nat → Option (List Char)
  | b2 :: b3 :: b4 :: rest4 =>
    if cont4ok b b2 && isCont b3 && isCont b4 then
      (utf8Decode rest4).map (val4 b b2 b3 b4 :: ·)
    else none
  | _ => none

end

/-- Lossy UTF-8 decoding (Rust `String::from_utf8_lossy`): each maximal
invalid subpart is replaced by U+FFFD. -/
def utf8DecodeLossy : List Nat → List Char
  | [] => []
  | b :: rest =>
    if b < 0x80 then Char.ofNat b :: utf8DecodeLossy rest
    else if 0xC2 ≤ b && b ≤ 0xDF then
      match rest with
      | b2 :: rest2 =>
        if isCont b2 then
          Char.ofNat ((b - 0xC0) * 64 + (b2 - 0x80)) :: utf8DecodeLossy rest2
        else '�' :: utf8DecodeLossy (b2 :: rest2)
      | [] => ['�']
    else if 0xE0 ≤ b && b ≤ 0xEF then
      let lo2 := if b = 0xE0 then 0xA0 else 0x80
      let hi2 := if b = 0xED then 0x9F else 0xBF
      match rest with
      | b2 :: rest2 =>
        if lo2 ≤ b2 && b2 ≤ hi2 then
          match rest2 with
          | b3 :: rest3 =>
            if isCont b3 then
              Char.ofNat ((b - 0xE0) * 4096 + (b2 - 0x80) * 64 + (b3 - 0x80)) ::
                utf8DecodeLossy rest3
            else '�' :: utf8DecodeLossy (b3 :: rest3)
          | [] => ['�']
        else '�' :: utf8DecodeLossy (b2 :: rest2)
      | [] => ['�']
    else if 0xF0 ≤ b && b ≤ 0xF4 then
      let lo2 := if b = 0xF0 then 0x90 else 0x80
      let hi2 := if b = 0xF4 then 0x8F else 0xBF
      match rest with
      | b2 :: rest2 =>
        if lo2 ≤ b2 && b2 ≤ hi2 then
          match rest2 with
          | b3 :: rest3 =>
            if isCont b3 then
              match rest3 with
              | b4 :: rest4 =>
                if isCont b4 then
                  Char.ofNat ((b - 0xF0) * 262144 + (b2 - 0x80) * 4096 +
                    (b3 - 0x80) * 64 + (b4 - 0x80)) :: utf8DecodeLossy rest4
                else '�' :: utf8DecodeLossy (b4 :: rest4)
              | [] => ['�']
            else '�' :: utf8DecodeLossy (b3 :: rest3)
          | [] => ['�']
        else '�' :: utf8DecodeLossy (b2 :: rest2)
      | [] => ['�']
    else '�' :: utf8DecodeLossy rest

/-! ## Percent coding (`urlencoding` crate) -/

/-- Value of an ASCII hex digit byte (`0-9`, `A-F`, `a-f`). -/
def hexVal (b : Nat) : Option Nat :=
  if 0x30 ≤ b && b ≤ 0x39 then some (b - 0x30)
  else if 0x41 ≤ b && b ≤ 0x46 then some (b - 0x41 + 10)
  else if 0x61 ≤ b && b ≤ 0x66 then some (b - 0x61 + 10)
  else none

/-- Byte-level percent-decoding loop of `urlencoding::decode` (and of
`percent_encoding::percent_decode`, used by `query_pairs`): `%HH` with two
hex digits becomes the byte `HH`; a `%` not followed by two hex digits is
emitted literally and scanning resumes at the next byte. -/
def pctDecodeScan : List Nat → List Nat
  | [] => []
  | 0x25 :: a :: b :: rest =>
    match hexVal a, hexVal b with
    | some ha, some hb => (16 * ha + hb) :: pctDecodeScan rest
    | _, _ => 0x25 :: pctDecodeScan (a :: b :: rest)
  | b :: rest => b :: pctDecodeScan rest

/-- `urlencoding::decode`: percent-decode the bytes of `s`, then validate the
result as UTF-8; `none` models `Err(FromUtf8Error)`. -/
def urlDecode (s : String) : Option String :=
  (utf8Decode (pctDecodeScan (utf8Encode s.data))).map (⟨·⟩)

/-- Bytes `urlencoding::encode` leaves unescaped: `A-Z a-z 0-9 - . _ ~`. -/
def unreservedByte (b : Nat) : Bool :=
  (0x41 ≤ b && b ≤ 0x5A) || (0x61 ≤ b && b ≤ 0x7A) || (0x30 ≤ b && b ≤ 0x39) ||
    b = 0x2D || b = 0x2E || b = 0x5F || b = 0x7E

/-- Upper-case hex digit of a value < 16. -/
def hexDigitUpper (n : Nat) : Char :=
  if n < 10 then Char.ofNat (0x30 + n) else Char.ofNat (0x41 + n - 10)

/-- Byte-level loop of `urlencoding::encode`: every byte outside the
unreserved set becomes `%HH` with upper-case hex. -/
def pctEncodeBytes : List Nat → List Char
  | [] => []
  | b :: rest =>
    (if unreservedByte b then [Char.ofNat b]
     else ['%', hexDigitUpper (b / 16), hexDigitUpper (b % 16)]) ++ pctEncodeBytes rest

/-- `urlencoding::encode`. -/
def pctEncode (s : String) : String := ⟨pctEncodeBytes (utf8Encode s.data)⟩

/-! ## WHATWG URL model (`url` crate fragment)

`Url::parse` of rust-url, restricted as described in the module comment.
A parsed URL is stored in normalised (serialised) components, mirroring how
rust-url stores the normalised serialisation string. -/

/-- Subset of `url::ParseError` produced by the modelled fragment. -/
inductive UrlParseError where
  | RelativeUrlWithoutBase
  | EmptyHost
  | InvalidPort
  | InvalidDomainCharacter
  | IdnaError
deriving DecidableEq, Repr

/-- The components of a parsed URL, already normalised/percent-encoded
exactly as they appear in rust-url's stored serialisation.
`host = none` means the URL has no authority at all;
`host = some h` means the serialisation contains `//…h…`.
rust-url reports an empty host as absent (`host_str() = None`), see
`hostStr` below. -/
structure ModelUrl where
  scheme : String
  userinfo : Option String
  host : Option String
  port : Option Nat
  path : String
  query : Option String
  fragment : Option String
deriving DecidableEq, Repr

/-- `Url::as_str`: the stored serialisation. -/
def ModelUrl.serialize (u : ModelUrl) : String :=
  u.scheme ++ ":" ++
  (match u.host with
   | some h =>
     "//" ++ (match u.userinfo with | some ui => ui ++ "@" | none => "") ++ h ++
       (match u.port with | some p => ":" ++ toString p | none => "")
   | none => "") ++
  u.path ++
  (match u.query with | some q => "?" ++ q | none => "") ++
  (match u.fragment with | some f => "#" ++ f | none => "")

/-- `Url::host_str`: `None` when there is no authority, and also when the
host is empty (rust-url maps an empty host to `HostInternal::None`). -/
def hostStr (u : ModelUrl) : Option String :=
  match u.host with
  | none => none
  | some h => if h = "" then none else some h

/-- A leading or trailing character removed by the URL parser:
C0 control or space. -/
def isC0OrSpace (c : Char) : Bool := c.toNat ≤ 0x20

/-- An ASCII tab or newline, removed from anywhere in the input. -/
def isTabOrNewline (c : Char) : Bool := c = '\t' || c = '\n' || c = '\r'

/-- Input preprocessing of the URL parser: trim C0 controls/space at both
ends, then drop all tabs and newlines. -/
def preprocess (l : List Char) : List Char :=
  ((((l.dropWhile isC0OrSpace).reverse).dropWhile isC0OrSpace).reverse).filter
    (fun c => !isTabOrNewline c)

/-- A character allowed after the first in a scheme. -/
def isSchemeChar (c : Char) : Bool := isAsciiAlnum c || c = '+' || c = '-' || c = '.'

/-- Split off the scheme: an ASCII letter, then scheme characters, then `:`.
Returns the raw scheme token and the remainder after the colon. -/
def schemeSpan (l : List Char) : Option (List Char × List Char) :=
  match l with
  | [] => none
  | c :: _ =>
    if isAsciiAlpha c then
      match l.dropWhile isSchemeChar with
      | ':' :: r => some (l.takeWhile isSchemeChar, r)
      | _ => none
    else none

/-- WHATWG special schemes. -/
def isSpecial (scheme : String) : Bool :=
  scheme = "http" || scheme = "https" || scheme = "ws" || scheme = "wss" ||
    scheme = "ftp" || scheme = "file"

/-- Default port of a special scheme, omitted from the serialisation. -/
def defaultPort (scheme : String) : Option Nat :=
  if scheme = "http" || scheme = "ws" then some 80
  else if scheme = "https" || scheme = "wss" then some 443
  else if scheme = "ftp" then some 21
  else none

/-- Characters always percent-encoded in components:
C0 controls and DEL / non-ASCII (the "C0 control percent-encode set"). -/
def mustEncodeBase (c : Char) : Bool := c.toNat ≤ 0x1F || 0x7F ≤ c.toNat

/-- WHATWG query percent-encode set (plus `'` for special schemes). -/
def queryEncodeSet (special : Bool) (c : Char) : Bool :=
  mustEncodeBase c || c = ' ' || c = '"' || c = '#' || c = '<' || c = '>' ||
    (special && c = '\'')

/-- WHATWG path percent-encode set. -/
def pathEncodeSet (c : Char) : Bool :=
  mustEncodeBase c || c = ' ' || c = '"' || c = '#' || c = '<' || c = '>' ||
    c = '?' || c = '`' || c = '{' || c = '}'

/-- WHATWG fragment percent-encode set. -/
def fragmentEncodeSet (c : Char) : Bool :=
  mustEncodeBase c || c = ' ' || c = '"' || c = '<' || c = '>' || c = '`'

/-- Percent-encode the UTF-8 bytes of one character. -/
def pctEncodeChar (c : Char) : List Char :=
  (utf8EncodeChar c).flatMap (fun b => ['%', hexDigitUpper (b / 16), hexDigitUpper (b % 16)])

/-- Percent-encode the characters selected by `p`, keep the others. -/
def encodeWith (p : Char → Bool) (l : List Char) : List Char :=
  l.flatMap (fun c => if p c then pctEncodeChar c else [c])

/-- WHATWG forbidden host code points. -/
def forbiddenHostChar (c : Char) : Bool :=
  c = Char.ofNat 0 || c = '\t' || c = '\n' || c = '\r' || c = ' ' || c = '#' ||
    c = '/' || c = ':' || c = '<' || c = '>' || c = '?' || c = '@' || c = '[' ||
    c = '\\' || c = ']' || c = '^' || c = '|'

/-- Forbidden domain code points (forbidden host plus `%`). -/
def forbiddenDomainChar (c : Char) : Bool := forbiddenHostChar c || c = '%'

/-- Host of a non-special URL: kept verbatim (an "opaque host") apart from
percent-encoding of C0 controls/non-ASCII; forbidden host characters fail.
IPv6 literals (leading `[`) are not modelled and fail here. -/
def hostNonSpecial (h : List Char) : Except UrlParseError (List Char) :=
  if h.any forbiddenHostChar then .error .InvalidDomainCharacter
  else .ok (encodeWith mustEncodeBase h)

/-- Host of a special URL: percent-decoded, then (ASCII fast path of
domain-to-ASCII) lower-cased with forbidden domain characters rejected.
A non-ASCII domain would enter IDNA mapping, which is not modelled. -/
def hostSpecial (h : List Char) : Except UrlParseError (List Char) :=
  match utf8Decode (pctDecodeScan (utf8Encode h)) with
  | none => .error .IdnaError
  | some dec =>
    if dec.any (fun c => 0x80 ≤ c.toNat) then .error .IdnaError
    else if dec.any forbiddenDomainChar then .error .InvalidDomainCharacter
    else .ok (dec.map lowerChar)

/-- Split a list at the last occurrence of `sep`:
`some (before, after)` when present. -/
def splitLastAt (sep : Char) (l : List Char) : Option (List Char × List Char) :=
  if l.contains sep then
    let after := (l.reverse.takeWhile (· ≠ sep)).reverse
    some (l.take (l.length - after.length - 1), after)
  else none

/-- Split a list at the first occurrence of `sep`. -/
def splitFirstAt (sep : Char) (l : List Char) : List Char × Option (List Char) :=
  match l.dropWhile (· ≠ sep) with
  | [] => (l.takeWhile (· ≠ sep), none)
  | _ :: rest => (l.takeWhile (· ≠ sep), some rest)

/-- Parse the digits of a port. `none` when empty (an empty port is dropped),
error on a non-digit or a value above 65535. -/
def parsePort (l : List Char) : Except UrlParseError (Option Nat) :=
  if l = [] then .ok none
  else if l.all isAsciiDigit then
    let n := l.foldl (fun acc c => acc * 10 + (c.toNat - 0x30)) 0
    if n ≤ 65535 then .ok (some n) else .error .InvalidPort
  else .error .InvalidPort

/-- One path segment, with WHATWG single/double dot segment handling folded
over an accumulator of finished segments. `atEnd` marks the final segment. -/
def pathSegStep (acc : List (List Char)) (seg : List Char)
    (atEnd : Bool) : List (List Char) :=
  if seg = ['.', '.'] then
    let acc := acc.dropLast
    if atEnd then acc ++ [[]] else acc
  else if seg = ['.'] then
    if atEnd then acc ++ [[]] else acc
  else acc ++ [encodeWith pathEncodeSet seg]

/-- Process the segments of a path. -/
def pathSegs : List (List Char) → List (List Char) → List (List Char)
  | acc, [] => acc
  | acc, [seg] => pathSegStep acc seg true
  | acc, seg :: rest => pathSegs (pathSegStep acc seg false) rest

/-- Normalise a path that follows an authority. The raw path is empty or
starts with `/` (for special schemes `\` separators were already mapped to
`/`). A special URL's empty path serialises as `/`. -/
def normalizePath (special : Bool) (raw : List Char) : String :=
  match raw with
  | [] => if special then "/" else ""
  | _ :: tail =>
    let segs := pathSegs [] (tail.splitOn '/')
    ⟨segs.foldl (fun acc seg => acc ++ '/' :: seg) []⟩

/-- Split path / query / fragment after the authority and build the final
URL. `raw` starts at the path (possibly empty). -/
def finishUrl (scheme : String) (userinfo : Option String) (host : Option String)
    (port : Option Nat) (special : Bool) (raw : List Char) : ModelUrl :=
  let raw := if special then raw.map (fun c => if c = '\\' then '/' else c) else raw
  let pathRaw := raw.takeWhile (fun c => c ≠ '?' && c ≠ '#')
  let path := normalizePath special pathRaw
  match raw.dropWhile (fun c => c ≠ '?' && c ≠ '#') with
  | '?' :: r =>
    let qRaw := r.takeWhile (· ≠ '#')
    let query := some (⟨encodeWith (queryEncodeSet special) qRaw⟩ : String)
    match r.dropWhile (· ≠ '#') with
    | '#' :: fr =>
      ⟨scheme, userinfo, host, port, path, query, some ⟨encodeWith fragmentEncodeSet fr⟩⟩
    | _ => ⟨scheme, userinfo, host, port, path, query, none⟩
  | '#' :: fr =>
    ⟨scheme, userinfo, host, port, path, none, some ⟨encodeWith fragmentEncodeSet fr⟩⟩
  | _ => ⟨scheme, userinfo, host, port, path, none, none⟩

/-- Parse an authority (everything up to the path/query/fragment) and the
rest of the URL. `r` starts right after the `//` (or after the slash run for
special schemes). -/
def parseAuthorityRest (scheme : String) (special : Bool) (r : List Char) :
    Except UrlParseError ModelUrl :=
  let isAuthorityEnd : Char → Bool :=
    fun c => c = '/' || c = '?' || c = '#' || (special && c = '\\')
  let au := r.takeWhile (fun c => !isAuthorityEnd c)
  let rest := r.dropWhile (fun c => !isAuthorityEnd c)
  let (userinfoRaw, hostport) :=
    match splitLastAt '@' au with
    | some (ui, hp) => (some ui, hp)
    | none => (none, au)
  -- the userinfo encode set is not modelled; userinfo is kept verbatim
  let userinfo := userinfoRaw.map (⟨·⟩ : List Char → String)
  let (hostRaw, portRaw) := splitFirstAt ':' hostport
  match parsePort (portRaw.getD []) with
  | .error e => .error e
  | .ok port0 =>
    let port := if port0 = defaultPort scheme then none else port0
    match (if special then hostSpecial hostRaw else hostNonSpecial hostRaw) with
    | .error e => .error e
    | .ok host =>
      if host = [] then
        if special && scheme ≠ "file" then .error .EmptyHost
        else if userinfo.isSome || port.isSome then .error .EmptyHost
        else .ok (finishUrl scheme none (some "") none special rest)
      else .ok (finishUrl scheme userinfo (some ⟨host⟩) port special rest)

/-- `Url::parse` (fragment; no base URL). -/
def urlParse (s : String) : Except UrlParseError ModelUrl :=
  let l := preprocess s.data
  match schemeSpan l with
  | none => .error .RelativeUrlWithoutBase
  | some (schemeRaw, rest) =>
    let scheme : String := ⟨schemeRaw.map lowerChar⟩
    if isSpecial scheme then
      -- special authority: skip every leading slash or backslash
      parseAuthorityRest scheme true (rest.dropWhile (fun c => c = '/' || c = '\\'))
    else
      match rest with
      | '/' :: '/' :: r => parseAuthorityRest scheme false r
      | _ =>
        -- cannot-be-a-base URL: the path is taken verbatim
        -- (percent-encoding C0 controls/non-ASCII)
        let pathRaw := rest.takeWhile (fun c => c ≠ '?' && c ≠ '#')
        let path : String := ⟨encodeWith mustEncodeBase pathRaw⟩
        match rest.dropWhile (fun c => c ≠ '?' && c ≠ '#') with
        | '?' :: r =>
          let qRaw := r.takeWhile (· ≠ '#')
          let query := some (⟨encodeWith (queryEncodeSet false) qRaw⟩ : String)
          match r.dropWhile (· ≠ '#') with
          | '#' :: fr =>
            .ok ⟨scheme, none, none, none, path, query, some ⟨encodeWith fragmentEncodeSet fr⟩⟩
          | _ => .ok ⟨scheme, none, none, none, path, query, none⟩
        | '#' :: fr =>
          .ok ⟨scheme, none, none, none, path, none, some ⟨encodeWith fragmentEncodeSet fr⟩⟩
        | _ => .ok ⟨scheme, none, none, none, path, none, none⟩

/-! ## `Url::query_pairs` (form-urlencoded parsing of the stored query) -/

/-- Split on a separator, keeping empty chunks. -/
def splitSep (sep : Char) : List Char → List (List Char)
  | [] => [[]]
  | c :: rest =>
    if c = sep then [] :: splitSep sep rest
    else
      match splitSep sep rest with
      | s :: ss => (c :: s) :: ss
      | [] => [[c]]

/-- Decode one form-urlencoded component: `+` to space, percent-decode the
bytes, lossy-UTF-8 back to a string. -/
def formDecode (l : List Char) : String :=
  ⟨utf8DecodeLossy (pctDecodeScan (utf8Encode (l.map (fun c => if c = '+' then ' ' else c))))⟩

/-- One `key=value` pair (value empty when there is no `=`). -/
def formPair (l : List Char) : String × String :=
  match splitFirstAt '=' l with
  | (k, some v) => (formDecode k, formDecode v)
  | (k, none) => (formDecode k, "")

/-- `Url::query_pairs`: split the stored query on `&`, drop empty chunks,
decode each pair. -/
def queryPairs (u : ModelUrl) : List (String × String) :=
  match u.query with
  | none => []
  | some q => ((splitSep '&' q.data).filter (· ≠ [])).map formPair

/-- `HashMap`-collect then `get`: with last-occurrence-wins semantics
(`collect` inserts pairs in order, later keys overwrite earlier ones). -/
def lookupLast (ps : List (String × String)) (k : String) : Option String :=
  ((ps.filter (fun p => p.1 = k)).getLast?).map (·.2)

/-! ## `handler` module of `src/ocs-custodian/src/lib.rs` -/

/-- `enum OcsParsingError`. The payloads of the two transparent wrappers are
the underlying errors; `FromUtf8Error` carries no modelled payload. -/
inductive OcsParsingError where
  | UrlDecodeError
  | UrlParsingError (e : UrlParseError)
  | NoOcsScheme
  | UnexpectedOcsScheme (s : String)
  | NoOcsCommand
  | UnexpectedOcsCommand (s : String)
  | NoDownloadUrl
  | UnknownInstallType (s : String)
  | NoInstallType
deriving DecidableEq, Repr

/-- `enum Scheme`. -/
inductive Scheme where
  | Ocs
  | Ocss
deriving DecidableEq, Repr

/-- `impl Display for Scheme`. -/
def Scheme.str : Scheme → String
  | .Ocs => "ocs"
  | .Ocss => "ocss"

/-- `enum Command`. -/
inductive Command where
  | Download
  | Install
deriving DecidableEq, Repr

/-- `impl Display for Command`. -/
def Command.str : Command → String
  | .Download => "download"
  | .Install => "install"

/-- `struct ParsedOcsUrl`. -/
structure ParsedOcsUrl where
  ocs_url : ModelUrl
  scheme : Scheme
  command : Command
  download_url : ModelUrl
  install_type : String
  filename : Option String
deriving DecidableEq, Repr

/-- The `scheme:` field initialiser of `check_url`:
`match ocs_url.scheme().to_lowercase().as_str() { "ocs" => …, "ocss" => …,
other => return Err(UnexpectedOcsScheme(other)) }`. -/
def parseScheme (ocs_url : ModelUrl) : Except OcsParsingError Scheme :=
  let ls := toLowerStr ocs_url.scheme
  if ls = "ocs" then .ok .Ocs
  else if ls = "ocss" then .ok .Ocss
  else .error (.UnexpectedOcsScheme ls)

/-- The `command:` field initialiser of `check_url`:
`match ocs_url.host_str() { None => Err(NoOcsCommand), Some(cmd) =>
match cmd.to_lowercase() { "download" => …, "install" => …,
other => Err(UnexpectedOcsCommand(other)) } }`. -/
def parseCommand (ocs_url : ModelUrl) : Except OcsParsingError Command :=
  match hostStr ocs_url with
  | none => .error .NoOcsCommand
  | some cmd =>
    let lc := toLowerStr cmd
    if lc = "download" then .ok .Download
    else if lc = "install" then .ok .Install
    else .error (.UnexpectedOcsCommand lc)

/-- The `download_url:` field initialiser of `check_url`:
`match parameters.get("url") { None => Err(NoDownloadUrl),
Some(given) => Url::from_str(given)? }`. -/
def parseDownloadUrl (parameters : List (String × String)) :
    Except OcsParsingError ModelUrl :=
  match lookupLast parameters "url" with
  | none => .error .NoDownloadUrl
  | some given =>
    match urlParse given with
    | .error e => .error (.UrlParsingError e)
    | .ok u => .ok u

/-- The `install_type:` field initialiser of `check_url`:
`match parameters.get("type") { None => Err(NoInstallType),
Some(t) => t.to_string() }`. -/
def parseInstallType (parameters : List (String × String)) :
    Except OcsParsingError String :=
  match lookupLast parameters "type" with
  | none => .error .NoInstallType
  | some install_type => .ok install_type

/-- The struct-literal part of `check_url`, once `urlencoding::decode` and
`Url::parse` have succeeded on the input. The fields are evaluated in source
order (`ocs_url`, `scheme`, `command`, `download_url`, `install_type`,
`filename`), each `return Err(…)` short-circuiting the rest. -/
def check_url_core (ocs_url : ModelUrl) : Except OcsParsingError ParsedOcsUrl :=
  let parameters := queryPairs ocs_url
  match parseScheme ocs_url with
  | .error e => .error e
  | .ok scheme =>
    match parseCommand ocs_url with
    | .error e => .error e
    | .ok command =>
      match parseDownloadUrl parameters with
      | .error e => .error e
      | .ok download_url =>
        match parseInstallType parameters with
        | .error e => .error e
        | .ok install_type =>
          .ok { ocs_url := ocs_url, scheme := scheme, command := command,
                download_url := download_url, install_type := install_type,
                filename := lookupLast parameters "filename" }

/-- `pub fn check_url(url: &str) -> Result<ParsedOcsUrl, OcsParsingError>`:
decode, parse, then fill the struct literal. -/
def check_url (url : String) : Except OcsParsingError ParsedOcsUrl :=
  match urlDecode url with
  | none => .error .UrlDecodeError
  | some decoded_url =>
    match urlParse decoded_url with
    | .error e => .error (.UrlParsingError e)
    | .ok ocs_url => check_url_core ocs_url

/-- `impl Display for ParsedOcsUrl`:
`{scheme}://{command}?url={urlencoding::encode(download_url.as_str())}&type={install_type}`
and, only if a filename is present, `&filename={filename}` (emitted raw). -/
def render (p : ParsedOcsUrl) : String :=
  p.scheme.str ++ "://" ++ p.command.str ++ "?url=" ++
    pctEncode p.download_url.serialize ++ "&type=" ++ p.install_type ++
    (match p.filename with
     | some f => "&filename=" ++ f
     | none => "")

/-! ## `src/ocs-custodian/src/types/install_type.rs` -/

/-- `enum InstallTypeError`. -/
inductive InstallTypeError where
  | NoMatchingInstallType (s : String)
  | NoInstallTypeAlias (s : String)
deriving DecidableEq, Repr

/-- `enum PersonalMedia`. -/
inductive PersonalMedia where
  | Bin
  | Books
  | Comics
  | Documents
  | Downloads
  | Music
  | Pictures
  | Videos
  | Wallpapers
deriving DecidableEq, Repr

/-- `impl InstallStrategy for PersonalMedia`. -/
def PersonalMedia.get_install_path : PersonalMedia → String
  | .Bin => "$HOME/.local/bin"
  | .Books => "$APP_DATA/books"
  | .Comics => "$APP_DATA/comics"
  | .Documents => "$HOME/Documents"
  | .Downloads => "$HOME/Downloads"
  | .Music => "$HOME/Music"
  | .Pictures => "$HOME/Pictures"
  | .Videos => "$HOME/Videos"
  | .Wallpapers => "$XDG_DATA_HOME/wallpapers"

/-- `impl TryFrom<&str> for PersonalMedia`: matches on
`value.to_lowercase()`; the error payload is the lower-cased token
(`other.into()` binds the lower-cased string). -/
def PersonalMedia.try_from (value : String) : Except InstallTypeError PersonalMedia :=
  let lv := toLowerStr value
  if lv = "bin" then .ok .Bin
  else if lv = "books" then .ok .Books
  else if lv = "comics" then .ok .Comics
  else if lv = "documents" then .ok .Documents
  else if lv = "downloads" then .ok .Downloads
  else if lv = "music" then .ok .Music
  else if lv = "pictures" then .ok .Pictures
  else if lv = "videos" then .ok .Videos
  else if lv = "wallpapers" then .ok .Wallpapers
  else .error (.NoMatchingInstallType lv)

/-- `enum Styling`. -/
inductive Styling where
  | ColorSchemes
  | Cursors
  | Emoticons
  | Fonts
  | Icons
  | Themes
deriving DecidableEq, Repr

/-- `impl InstallStrategy for Styling`. -/
def Styling.get_install_path : Styling → String
  | .ColorSchemes => "$XDG_DATA_HOME/color-schemes"
  | .Cursors => "$HOME/.icons"
  | .Emoticons => "$XDG_DATA_HOME/emoticons"
  | .Fonts => "$HOME/.fonts"
  | .Icons => "$XDG_DATA_HOME/icons"
  | .Themes => "$HOME/.themes"

/-- `impl TryFrom<&str> for Styling`: matches on `value` directly
(case-sensitive, no aliases). -/
def Styling.try_from (value : String) : Except InstallTypeError Styling :=
  if value = "color_schemes" then .ok .ColorSchemes
  else if value = "cursors" then .ok .Cursors
  else if value = "emoticons" then .ok .Emoticons
  else if value = "fonts" then .ok .Fonts
  else if value = "icons" then .ok .Icons
  else if value = "themes" then .ok .Themes
  else .error (.NoMatchingInstallType value)

/-! ## Concrete values used by the tests of the specification

The canonical link of the repository's own round-trip test
(`url_parse_good_link`), and its intermediate values under the pipeline. -/

/-- The canonical OCS link of the specification. -/
def canonicalLink : String :=
  "ocs://install?url=https%3A%2F%2Ffake.download%2Flocation.png&type=plasma_look_and_feel&filename=location55.png"

/-- The canonical link after `urlencoding::decode`. -/
def canonicalDecoded : String :=
  "ocs://install?url=https://fake.download/location.png&type=plasma_look_and_feel&filename=location55.png"

/-- `Url::parse` of the decoded canonical link. -/
def canonicalOcsUrl : ModelUrl :=
  ⟨"ocs", none, some "install", none, "",
    some "url=https://fake.download/location.png&type=plasma_look_and_feel&filename=location55.png",
    none⟩

/-- The download URL extracted from the canonical link. -/
def fakeDownloadUrl : ModelUrl :=
  ⟨"https", none, some "fake.download", none, "/location.png", none, none⟩

/-- The parse result of the canonical link. -/
def canonicalParsed : ParsedOcsUrl :=
  ⟨canonicalOcsUrl, .Ocs, .Install, fakeDownloadUrl, "plasma_look_and_feel",
    some "location55.png"⟩

/-! ## Benign characters

Character classes under which every stage of the pipeline is transparent:
no percent escapes, no structural delimiters, no characters any component
percent-encodes. Used to state the canonical-form round-trip property. -/

/-- A benign character for `type`/`filename` values: ASCII alphanumeric or
`_`, `.`, `-`, `~`. -/
def benignValChar (c : Char) : Bool :=
  isAsciiAlnum c || c = '_' || c = '.' || c = '-' || c = '~'

/-- A benign character for a download-URL serialisation: benign value
characters plus `:` and `/`. -/
def benignUrlChar (c : Char) : Bool := benignValChar c || c = ':' || c = '/'

/-- A link with an extraneous query parameter (`extra=1`), used for the
round-trip counterexample. -/
def extraParamLink : String :=
  "ocs://install?url=https%3A%2F%2Ffake.download%2Flocation.png&type=t&extra=1"

/-- The parse result of `extraParamLink`. -/
def extraParamParsed : ParsedOcsUrl :=
  ⟨⟨"ocs", none, some "install", none, "",
      some "url=https://fake.download/location.png&type=t&extra=1", none⟩,
    .Ocs, .Install, fakeDownloadUrl, "t", none⟩

/-- The parse result of the rendering of `extraParamParsed` (the `extra=1`
parameter is gone from the stored URL). -/
def extraParamReparsed : ParsedOcsUrl :=
  ⟨⟨"ocs", none, some "install", none, "",
      some "url=https://fake.download/location.png&type=t", none⟩,
    .Ocs, .Install, fakeDownloadUrl, "t", none⟩

/-- The query string of a canonical four-field link, after decoding. -/
def canonQ (dl t f : String) : List Char :=
  ("url=".data ++ dl.data) ++ '&' ::
    (("type=".data ++ t.data) ++ '&' :: ("filename=".data ++ f.data))

/-- The `Url::parse` result of a decoded canonical four-field link. -/
def canonU (sch : Scheme) (cmd : Command) (dl t f : String) : ModelUrl :=
  ⟨sch.str, none, some cmd.str, none, "", some ⟨canonQ dl t f⟩, none⟩

/-! # Theorems -/

/-! ## Character-class lemmas -/

theorem char_toNat_ofNat {n : Nat} (h : n.isValidChar) : (Char.ofNat n).toNat = n := by
  unfold Char.ofNat
  rw [dif_pos h]
  rfl

theorem char_ne_of_toNat_ne {c d : Char} (h : c.toNat ≠ d.toNat) : c ≠ d :=
  fun he => h (he ▸ rfl)

theorem benignVal_toNat (c : Char) (h : benignValChar c = true) :
    (0x41 ≤ c.toNat ∧ c.toNat ≤ 0x5A) ∨ (0x61 ≤ c.toNat ∧ c.toNat ≤ 0x7A) ∨
      (0x30 ≤ c.toNat ∧ c.toNat ≤ 0x39) ∨ c.toNat = 0x5F ∨ c.toNat = 0x2E ∨
      c.toNat = 0x2D ∨ c.toNat = 0x7E := by
  unfold benignValChar isAsciiAlnum isAsciiAlpha isAsciiUpper isAsciiLower isAsciiDigit at h
  simp only [Bool.or_eq_true, Bool.and_eq_true, decide_eq_true_eq] at h
  rcases h with (((((hu | hl) | hd) | he) | he) | he) | he
  · exact .inl hu
  · exact .inr (.inl hl)
  · exact .inr (.inr (.inl hd))
  · subst he; decide
  · subst he; decide
  · subst he; decide
  · subst he; decide

theorem benignVal_props (c : Char) (h : benignValChar c = true) :
    0x20 < c.toNat ∧ c.toNat < 0x7F ∧ c.toNat ≠ 0x25 ∧ c.toNat ≠ 0x26 ∧
      c.toNat ≠ 0x3D ∧ c.toNat ≠ 0x23 ∧ c.toNat ≠ 0x3F ∧ c.toNat ≠ 0x2B ∧
      c.toNat ≠ 0x22 ∧ c.toNat ≠ 0x3C ∧ c.toNat ≠ 0x3E ∧ c.toNat ≠ 0x27 := by
  rcases benignVal_toNat c h with ⟨a, b⟩ | ⟨a, b⟩ | ⟨a, b⟩ | a | a | a | a <;>
    exact ⟨by omega, by omega, by omega, by omega, by omega, by omega, by omega,
      by omega, by omega, by omega, by omega, by omega⟩

theorem benignUrl_props (c : Char) (h : benignUrlChar c = true) :
    0x20 < c.toNat ∧ c.toNat < 0x7F ∧ c.toNat ≠ 0x25 ∧ c.toNat ≠ 0x26 ∧
      c.toNat ≠ 0x3D ∧ c.toNat ≠ 0x23 ∧ c.toNat ≠ 0x3F ∧ c.toNat ≠ 0x2B ∧
      c.toNat ≠ 0x22 ∧ c.toNat ≠ 0x3C ∧ c.toNat ≠ 0x3E ∧ c.toNat ≠ 0x27 := by
  unfold benignUrlChar at h
  simp only [Bool.or_eq_true, decide_eq_true_eq] at h
  rcases h with (hv | he) | he
  · exact benignVal_props c hv
  · subst he; decide
  · subst he; decide

/-- The scanner-level consequences of value-benignity used below. -/
theorem benignVal_scan (c : Char) (h : benignValChar c = true) :
    isTabOrNewline c = false ∧ isC0OrSpace c = false ∧
      queryEncodeSet false c = false ∧ c ≠ '#' ∧ c ≠ '?' ∧ c ≠ '&' ∧ c ≠ '=' ∧
      c.toNat < 0x80 ∧ c.toNat ≠ 0x25 ∧ c.toNat ≠ 0x2B := by
  obtain ⟨g1, g2, g3, g4, g5, g6, g7, g8, g9, g10, g11, g12⟩ := benignVal_props c h
  have n9 : c ≠ '\t' := char_ne_of_toNat_ne (by have e : ('\t').toNat = 9 := rfl; omega)
  have n10 : c ≠ '\n' := char_ne_of_toNat_ne (by have e : ('\n').toNat = 10 := rfl; omega)
  have n13 : c ≠ '\r' := char_ne_of_toNat_ne (by have e : ('\r').toNat = 13 := rfl; omega)
  have n32 : c ≠ ' ' := char_ne_of_toNat_ne (by have e : (' ').toNat = 32 := rfl; omega)
  have n34 : c ≠ '"' := char_ne_of_toNat_ne (by have e : ('"').toNat = 34 := rfl; omega)
  have n35 : c ≠ '#' := char_ne_of_toNat_ne (by have e : ('#').toNat = 35 := rfl; omega)
  have n60 : c ≠ '<' := char_ne_of_toNat_ne (by have e : ('<').toNat = 60 := rfl; omega)
  have n62 : c ≠ '>' := char_ne_of_toNat_ne (by have e : ('>').toNat = 62 := rfl; omega)
  have n63 : c ≠ '?' := char_ne_of_toNat_ne (by have e : ('?').toNat = 63 := rfl; omega)
  have n38 : c ≠ '&' := char_ne_of_toNat_ne (by have e : ('&').toNat = 38 := rfl; omega)
  have n61 : c ≠ '=' := char_ne_of_toNat_ne (by have e : ('=').toNat = 61 := rfl; omega)
  have hbase : mustEncodeBase c = false := by
    simp only [mustEncodeBase, Bool.or_eq_false_iff, decide_eq_false_iff_not]
    omega
  refine ⟨?_, ?_, ?_, n35, n63, n38, n61, by omega, g3, g8⟩
  · simp [isTabOrNewline, n9, n10, n13]
  · simp only [isC0OrSpace, decide_eq_false_iff_not]
    omega
  · simp [queryEncodeSet, hbase, n32, n34, n35, n60, n62]

theorem benignUrl_scan (c : Char) (h : benignUrlChar c = true) :
    isTabOrNewline c = false ∧ isC0OrSpace c = false ∧
      queryEncodeSet false c = false ∧ c ≠ '#' ∧ c ≠ '?' ∧ c ≠ '&' ∧ c ≠ '=' ∧
      c.toNat < 0x80 ∧ c.toNat ≠ 0x25 ∧ c.toNat ≠ 0x2B := by
  obtain ⟨g1, g2, g3, g4, g5, g6, g7, g8, g9, g10, g11, g12⟩ := benignUrl_props c h
  have n9 : c ≠ '\t' := char_ne_of_toNat_ne (by have e : ('\t').toNat = 9 := rfl; omega)
  have n10 : c ≠ '\n' := char_ne_of_toNat_ne (by have e : ('\n').toNat = 10 := rfl; omega)
  have n13 : c ≠ '\r' := char_ne_of_toNat_ne (by have e : ('\r').toNat = 13 := rfl; omega)
  have n32 : c ≠ ' ' := char_ne_of_toNat_ne (by have e : (' ').toNat = 32 := rfl; omega)
  have n34 : c ≠ '"' := char_ne_of_toNat_ne (by have e : ('"').toNat = 34 := rfl; omega)
  have n35 : c ≠ '#' := char_ne_of_toNat_ne (by have e : ('#').toNat = 35 := rfl; omega)
  have n60 : c ≠ '<' := char_ne_of_toNat_ne (by have e : ('<').toNat = 60 := rfl; omega)
  have n62 : c ≠ '>' := char_ne_of_toNat_ne (by have e : ('>').toNat = 62 := rfl; omega)
  have n63 : c ≠ '?' := char_ne_of_toNat_ne (by have e : ('?').toNat = 63 := rfl; omega)
  have n38 : c ≠ '&' := char_ne_of_toNat_ne (by have e : ('&').toNat = 38 := rfl; omega)
  have n61 : c ≠ '=' := char_ne_of_toNat_ne (by have e : ('=').toNat = 61 := rfl; omega)
  have hbase : mustEncodeBase c = false := by
    simp only [mustEncodeBase, Bool.or_eq_false_iff, decide_eq_false_iff_not]
    omega
  refine ⟨?_, ?_, ?_, n35, n63, n38, n61, by omega, g3, g8⟩
  · simp [isTabOrNewline, n9, n10, n13]
  · simp only [isC0OrSpace, decide_eq_false_iff_not]
    omega
  · simp [queryEncodeSet, hbase, n32, n34, n35, n60, n62]

/-! ## List-scanner lemmas -/

theorem map_id_of {α : Type} (f : α → α) (l : List α) (h : ∀ c ∈ l, f c = c) :
    l.map f = l := by
  induction l with
  | nil => rfl
  | cons a l ih =>
    rw [List.map_cons, h a (List.mem_cons_self a l),
      ih (fun c hc => h c (List.mem_cons_of_mem a hc))]

theorem takeWhile_all {p : Char → Bool} {l : List Char} (h : ∀ c ∈ l, p c = true) :
    l.takeWhile p = l := List.takeWhile_eq_self_iff.mpr h

theorem takeWhile_stop {p : Char → Bool} {c : Char} {rest : List Char}
    (h : p c = false) : (c :: rest).takeWhile p = [] := by
  simp [List.takeWhile_cons, h]

theorem dropWhile_stop {p : Char → Bool} {c : Char} {rest : List Char}
    (h : p c = false) : (c :: rest).dropWhile p = c :: rest := by
  simp [List.dropWhile_cons, h]

theorem dropWhile_false {p : Char → Bool} (l : List Char)
    (h : ∀ c ∈ l, p c = false) : l.dropWhile p = l := by
  cases l with
  | nil => rfl
  | cons a l => exact dropWhile_stop (h a (List.mem_cons_self a l))

theorem dropWhile_all {p : Char → Bool} (l : List Char)
    (h : ∀ c ∈ l, p c = true) : l.dropWhile p = [] := by
  induction l with
  | nil => rfl
  | cons a l ih =>
    rw [List.dropWhile_cons, if_pos (h a (List.mem_cons_self a l))]
    exact ih (fun c hc => h c (List.mem_cons_of_mem a hc))

theorem takeWhile_append_all {p : Char → Bool} (pre rest : List Char)
    (h : ∀ c ∈ pre, p c = true) :
    (pre ++ rest).takeWhile p = pre ++ rest.takeWhile p := by
  induction pre with
  | nil => rfl
  | cons a l ih =>
    rw [List.cons_append, List.takeWhile_cons, if_pos (h a (List.mem_cons_self a l)),
      ih (fun c hc => h c (List.mem_cons_of_mem a hc)), List.cons_append]

theorem dropWhile_append_all {p : Char → Bool} (pre rest : List Char)
    (h : ∀ c ∈ pre, p c = true) :
    (pre ++ rest).dropWhile p = rest.dropWhile p := by
  induction pre with
  | nil => rfl
  | cons a l ih =>
    rw [List.cons_append, List.dropWhile_cons, if_pos (h a (List.mem_cons_self a l))]
    exact ih (fun c hc => h c (List.mem_cons_of_mem a hc))

theorem encodeWith_id (p : Char → Bool) (l : List Char)
    (h : ∀ c ∈ l, p c = false) : encodeWith p l = l := by
  induction l with
  | nil => rfl
  | cons a l ih =>
    unfold encodeWith at ih ⊢
    rw [List.flatMap_cons, if_neg (by rw [h a (List.mem_cons_self a l)]; exact fun hh => nomatch hh),
      ih (fun c hc => h c (List.mem_cons_of_mem a hc))]
    rfl

theorem splitSep_no_sep (sep : Char) (l : List Char) (h : ∀ c ∈ l, c ≠ sep) :
    splitSep sep l = [l] := by
  induction l with
  | nil => rfl
  | cons a l ih =>
    unfold splitSep
    rw [if_neg (h a (List.mem_cons_self a l)),
      ih (fun c hc => h c (List.mem_cons_of_mem a hc))]

theorem splitSep_append (sep : Char) (a b : List Char) (h : ∀ c ∈ a, c ≠ sep) :
    splitSep sep (a ++ sep :: b) = a :: splitSep sep b := by
  induction a with
  | nil => simp [splitSep]
  | cons x l ih =>
    rw [List.cons_append]
    conv_lhs => rw [splitSep]
    rw [if_neg (h x (List.mem_cons_self x l)),
      ih (fun c hc => h c (List.mem_cons_of_mem x hc))]

/-! ## UTF-8 and percent-coding lemmas (ASCII fragment) -/

theorem utf8EncodeChar_ascii (c : Char) (h : c.toNat < 0x80) :
    utf8EncodeChar c = [c.toNat] := by
  unfold utf8EncodeChar
  rw [if_pos h]

theorem utf8Encode_ascii (l : List Char) (h : ∀ c ∈ l, c.toNat < 0x80) :
    utf8Encode l = l.map Char.toNat := by
  induction l with
  | nil => rfl
  | cons a l ih =>
    unfold utf8Encode at ih ⊢
    rw [List.flatMap_cons, utf8EncodeChar_ascii a (h a (List.mem_cons_self a l)),
      ih (fun c hc => h c (List.mem_cons_of_mem a hc)), List.map_cons]
    rfl

theorem utf8Encode_append (a b : List Char) :
    utf8Encode (a ++ b) = utf8Encode a ++ utf8Encode b :=
  List.flatMap_append a b utf8EncodeChar

set_option maxHeartbeats 2000000 in
theorem utf8Decode_asciiMap (l : List Char) (h : ∀ c ∈ l, c.toNat < 0x80) :
    utf8Decode (l.map Char.toNat) = some l := by
  induction l with
  | nil => rfl
  | cons a l ih =>
    rw [List.map_cons]
    conv_lhs => unfold utf8Decode
    rw [if_pos (h a (List.mem_cons_self a l)),
      ih (fun c hc => h c (List.mem_cons_of_mem a hc)), Option.map_some',
      Char.ofNat_toNat]

theorem utf8DecodeLossy_asciiMap (l : List Char) (h : ∀ c ∈ l, c.toNat < 0x80) :
    utf8DecodeLossy (l.map Char.toNat) = l := by
  induction l with
  | nil => rfl
  | cons a l ih =>
    rw [List.map_cons]
    unfold utf8DecodeLossy
    rw [if_pos (h a (List.mem_cons_self a l)),
      ih (fun c hc => h c (List.mem_cons_of_mem a hc)), Char.ofNat_toNat]

theorem pctDecodeScan_cons (b : Nat) (rest : List Nat) (h : b ≠ 0x25) :
    pctDecodeScan (b :: rest) = b :: pctDecodeScan rest := by
  rw [pctDecodeScan.eq_def]
  split
  · simp_all
  · simp_all
  · rename_i b' rest' hno heq
    injection heq with h1 h2
    subst h1
    subst h2
    rfl

theorem pctDecodeScan_app (a rest : List Nat) (h : ∀ b ∈ a, b ≠ 0x25) :
    pctDecodeScan (a ++ rest) = a ++ pctDecodeScan rest := by
  induction a with
  | nil => rfl
  | cons b l ih =>
    rw [List.cons_append, pctDecodeScan_cons b _ (h b (List.mem_cons_self b l)),
      ih (fun c hc => h c (List.mem_cons_of_mem b hc)), List.cons_append]

theorem pctDecodeScan_no (a : List Nat) (h : ∀ b ∈ a, b ≠ 0x25) :
    pctDecodeScan a = a := by
  have h2 := pctDecodeScan_app a [] h
  rw [List.append_nil] at h2
  rw [h2, show pctDecodeScan [] = [] from rfl, List.append_nil]

theorem hexVal_hexDigitUpper (n : Nat) (h : n < 16) :
    hexVal ((hexDigitUpper n).toNat) = some n := by
  interval_cases n <;> decide

theorem hexDigitUpper_ascii (n : Nat) (h : n < 16) :
    (hexDigitUpper n).toNat < 0x80 := by
  interval_cases n <;> decide

theorem unreservedByte_range (b : Nat) (h : unreservedByte b = true) :
    0x20 < b ∧ b < 0x7F ∧ b ≠ 0x25 := by
  unfold unreservedByte at h
  simp only [Bool.or_eq_true, Bool.and_eq_true, decide_eq_true_eq] at h
  rcases h with ((((((⟨a, b'⟩ | ⟨a, b'⟩) | ⟨a, b'⟩) | a) | a) | a) | a) <;>
    refine ⟨by omega, by omega, by omega⟩

theorem pctDecodeScan_esc (a b2 : Nat) (rest : List Nat) (ha : Nat) (hb : Nat)
    (h1 : hexVal a = some ha) (h2 : hexVal b2 = some hb) :
    pctDecodeScan (0x25 :: a :: b2 :: rest) = (16 * ha + hb) :: pctDecodeScan rest := by
  have step : pctDecodeScan (0x25 :: a :: b2 :: rest) =
      (match hexVal a, hexVal b2 with
       | some ha', some hb' => (16 * ha' + hb') :: pctDecodeScan rest
       | _, _ => 0x25 :: pctDecodeScan (a :: b2 :: rest)) := rfl
  rw [step, h1, h2]

theorem pctDecodeScan_enc (bs rest : List Nat) (h : ∀ b ∈ bs, b < 256) :
    pctDecodeScan ((pctEncodeBytes bs).map Char.toNat ++ rest) =
      bs ++ pctDecodeScan rest := by
  induction bs with
  | nil => rfl
  | cons b l ih =>
    have hb := h b (List.mem_cons_self b l)
    have ihl := ih (fun c hc => h c (List.mem_cons_of_mem b hc))
    by_cases hu : unreservedByte b = true
    · have he : pctEncodeBytes (b :: l) = Char.ofNat b :: pctEncodeBytes l := by
        simp [pctEncodeBytes, hu]
      obtain ⟨r1, r2, r3⟩ := unreservedByte_range b hu
      have htn : (Char.ofNat b).toNat = b := char_toNat_ofNat (Or.inl (by omega))
      rw [he, List.map_cons, htn, List.cons_append, pctDecodeScan_cons b _ r3, ihl]
      rfl
    · have he : pctEncodeBytes (b :: l) =
          '%' :: hexDigitUpper (b / 16) :: hexDigitUpper (b % 16) :: pctEncodeBytes l := by
        simp [pctEncodeBytes, hu]
      have hd : b / 16 < 16 := by omega
      have hm : b % 16 < 16 := by omega
      rw [he, List.map_cons, List.map_cons, List.map_cons, List.cons_append,
        List.cons_append, List.cons_append,
        show ('%').toNat = 0x25 from rfl,
        pctDecodeScan_esc _ _ _ (b / 16) (b % 16)
          (hexVal_hexDigitUpper _ hd) (hexVal_hexDigitUpper _ hm),
        ihl, Nat.div_add_mod]
      rfl

theorem pctEncodeBytes_ascii (bs : List Nat) (h : ∀ b ∈ bs, b < 256) :
    ∀ c ∈ pctEncodeBytes bs, c.toNat < 0x80 := by
  induction bs with
  | nil => intro c hc; cases hc
  | cons b l ih =>
    intro c hc
    have hb := h b (List.mem_cons_self b l)
    have ihl := ih (fun x hx => h x (List.mem_cons_of_mem b hx))
    unfold pctEncodeBytes at hc
    rcases List.mem_append.mp hc with hc1 | hc2
    · by_cases hu : unreservedByte b = true
      · rw [if_pos hu] at hc1
        obtain ⟨r1, r2, _⟩ := unreservedByte_range b hu
        have : c = Char.ofNat b := by simpa using hc1
        subst this
        rw [char_toNat_ofNat (Or.inl (by omega))]
        omega
      · rw [if_neg hu] at hc1
        have hd : b / 16 < 16 := by omega
        have hm : b % 16 < 16 := by omega
        simp only [List.mem_cons, List.not_mem_nil, or_false] at hc1
        rcases hc1 with h' | h' | h'
        · subst h'; decide
        · subst h'; exact hexDigitUpper_ascii _ hd
        · subst h'; exact hexDigitUpper_ascii _ hm
    · exact ihl c hc2

/-- `urlencoding::decode` is transparent on a percent-free ASCII context
around an encoded ASCII payload: it recovers the payload. -/
theorem urlDecode_split (x y dl : String)
    (hx : ∀ c ∈ x.data, c.toNat < 0x80 ∧ c.toNat ≠ 0x25)
    (hy : ∀ c ∈ y.data, c.toNat < 0x80 ∧ c.toNat ≠ 0x25)
    (hdl : ∀ c ∈ dl.data, c.toNat < 0x80) :
    urlDecode (x ++ pctEncode dl ++ y) = some (x ++ dl ++ y) := by
  unfold urlDecode pctEncode
  have hdlb : ∀ b ∈ utf8Encode dl.data, b < 256 := by
    rw [utf8Encode_ascii dl.data hdl]
    intro b hb
    obtain ⟨c, hc, rfl⟩ := List.mem_map.mp hb
    have := hdl c hc
    omega
  have hdata : (x ++ (⟨pctEncodeBytes (utf8Encode dl.data)⟩ : String) ++ y).data =
      x.data ++ (pctEncodeBytes (utf8Encode dl.data) ++ y.data) := by
    simp [String.data_append, List.append_assoc]
  rw [hdata, utf8Encode_append, utf8Encode_append,
    utf8Encode_ascii x.data (fun c hc => (hx c hc).1),
    utf8Encode_ascii y.data (fun c hc => (hy c hc).1),
    utf8Encode_ascii _ (pctEncodeBytes_ascii _ hdlb),
    pctDecodeScan_app _ _ (by
      intro b hb
      obtain ⟨c, hc, rfl⟩ := List.mem_map.mp hb
      exact (hx c hc).2),
    pctDecodeScan_enc _ _ hdlb,
    pctDecodeScan_no _ (by
      intro b hb
      obtain ⟨c, hc, rfl⟩ := List.mem_map.mp hb
      exact (hy c hc).2),
    utf8Encode_ascii dl.data hdl]
  rw [show x.data.map Char.toNat ++ (dl.data.map Char.toNat ++ y.data.map Char.toNat) =
      (x.data ++ dl.data ++ y.data).map Char.toNat by
    simp [List.map_append, List.append_assoc]]
  rw [utf8Decode_asciiMap _ (by
    intro c hc
    rcases List.mem_append.mp hc with hc' | hc'
    · rcases List.mem_append.mp hc' with hc'' | hc''
      · exact (hx c hc'').1
      · exact hdl c hc''
    · exact (hy c hc').1)]
  have hfin : (⟨x.data ++ dl.data ++ y.data⟩ : String) = x ++ dl ++ y := by
    apply String.ext
    simp [String.data_append, List.append_assoc]
  rw [Option.map_some', hfin]

/-! ## Generic canonical-shape URL parsing lemmas -/

theorem contains_false (l : List Char) (x : Char) (h : ∀ c ∈ l, c ≠ x) :
    l.contains x = false := by
  simp only [List.contains_eq_any_beq, List.any_eq_false]
  intro c hc
  simp only [beq_iff_eq]
  exact fun he => h c hc he.symm

theorem splitLastAt_none (sep : Char) (l : List Char) (h : ∀ c ∈ l, c ≠ sep) :
    splitLastAt sep l = none := by
  unfold splitLastAt
  rw [if_neg]
  rw [contains_false l sep h]
  exact fun hh => nomatch hh

theorem splitFirstAt_none (sep : Char) (l : List Char) (h : ∀ c ∈ l, c ≠ sep) :
    splitFirstAt sep l = (l, none) := by
  unfold splitFirstAt
  rw [dropWhile_all l (fun c hc => decide_eq_true (h c hc)),
    takeWhile_all (fun c hc => decide_eq_true (h c hc))]

theorem any_false (p : Char → Bool) (l : List Char) (h : ∀ c ∈ l, p c = false) :
    l.any p = false := by
  simp only [List.any_eq_false]
  intro c hc
  rw [h c hc]
  exact fun hh => nomatch hh

theorem hostNonSpecial_ok (h : List Char)
    (hh : ∀ c ∈ h, forbiddenHostChar c = false ∧ mustEncodeBase c = false) :
    hostNonSpecial h = .ok h := by
  unfold hostNonSpecial
  rw [if_neg, encodeWith_id _ _ (fun c hc => (hh c hc).2)]
  rw [any_false _ _ (fun c hc => (hh c hc).1)]
  exact fun hc => nomatch hc

theorem preprocess_id (l : List Char) (h : ∀ c ∈ l, 0x20 < c.toNat) :
    preprocess l = l := by
  have hc0 : ∀ c ∈ l, isC0OrSpace c = false := by
    intro c hc
    simp only [isC0OrSpace, decide_eq_false_iff_not]
    have := h c hc
    omega
  have htn : ∀ c ∈ l, isTabOrNewline c = false := by
    intro c hc
    have h9 : c ≠ '\t' := char_ne_of_toNat_ne
      (by have e : ('\t').toNat = 9 := rfl; have := h c hc; omega)
    have h10 : c ≠ '\n' := char_ne_of_toNat_ne
      (by have e : ('\n').toNat = 10 := rfl; have := h c hc; omega)
    have h13 : c ≠ '\r' := char_ne_of_toNat_ne
      (by have e : ('\r').toNat = 13 := rfl; have := h c hc; omega)
    simp [isTabOrNewline, h9, h10, h13]
  unfold preprocess
  rw [dropWhile_false l hc0]
  rw [dropWhile_false l.reverse (fun c hc => hc0 c (List.mem_reverse.mp hc))]
  rw [List.reverse_reverse]
  exact List.filter_eq_self.mpr (fun c hc => by rw [htn c hc]; rfl)

theorem schemeSpan_token (S R : List Char) (c0 : Char) (S' : List Char)
    (hS0 : S = c0 :: S') (ha : isAsciiAlpha c0 = true)
    (hS : ∀ c ∈ S, isSchemeChar c = true) :
    schemeSpan (S ++ ':' :: R) = some (S, R) := by
  subst hS0
  have hcolon : isSchemeChar ':' = false := by decide
  have hdw : ((c0 :: S') ++ ':' :: R).dropWhile isSchemeChar = ':' :: R := by
    rw [dropWhile_append_all _ _ hS, dropWhile_stop hcolon]
  have htw : ((c0 :: S') ++ ':' :: R).takeWhile isSchemeChar = c0 :: S' := by
    rw [takeWhile_append_all _ _ hS, takeWhile_stop hcolon, List.append_nil]
  unfold schemeSpan
  simp only [List.cons_append, List.append_eq]
  simp only [← List.cons_append, hdw, htw, ha, if_true]

theorem finishUrl_query (scheme : String) (host : Option String) (Q : List Char)
    (hQ : ∀ c ∈ Q, queryEncodeSet false c = false ∧ c ≠ '#') :
    finishUrl scheme none host none false ('?' :: Q) =
      ⟨scheme, none, host, none, "", some ⟨Q⟩, none⟩ := by
  have hp : (fun c => c ≠ '?' && c ≠ '#') '?' = false := by decide
  have hq1 : ∀ c ∈ Q, (fun c => decide (c ≠ '#')) c = true :=
    fun c hc => decide_eq_true (hQ c hc).2
  have htw : ('?' :: Q).takeWhile (fun c => c ≠ '?' && c ≠ '#') = [] :=
    takeWhile_stop hp
  have hdw : ('?' :: Q).dropWhile (fun c => c ≠ '?' && c ≠ '#') = '?' :: Q :=
    dropWhile_stop hp
  have htw2 : Q.takeWhile (fun c => decide (c ≠ '#')) = Q := takeWhile_all hq1
  have hdw2 : Q.dropWhile (fun c => decide (c ≠ '#')) = [] := dropWhile_all Q hq1
  have henc : encodeWith (queryEncodeSet false) Q = Q :=
    encodeWith_id _ _ (fun c hc => (hQ c hc).1)
  unfold finishUrl
  simp only [Bool.false_eq_true, if_false, htw, hdw, htw2, hdw2, henc]
  rfl

theorem parseAuthorityRest_basic (scheme : String) (C Q : List Char)
    (hCne : C ≠ [])
    (hC : ∀ c ∈ C, c ≠ '/' ∧ c ≠ '?' ∧ c ≠ '#' ∧ c ≠ '@' ∧ c ≠ ':' ∧
      forbiddenHostChar c = false ∧ mustEncodeBase c = false)
    (hQ : ∀ c ∈ Q, queryEncodeSet false c = false ∧ c ≠ '#') :
    parseAuthorityRest scheme false (C ++ '?' :: Q) =
      .ok ⟨scheme, none, some ⟨C⟩, none, "", some ⟨Q⟩, none⟩ := by
  have hCend : ∀ c ∈ C,
      (fun c => !(c = '/' || c = '?' || c = '#' || (false && c = '\\'))) c = true := by
    intro c hc
    obtain ⟨h1, h2, h3, _, _, _, _⟩ := hC c hc
    simp [h1, h2, h3]
  have hqend : (fun c => !(c = '/' || c = '?' || c = '#' || (false && c = '\\'))) '?' = false := by
    decide
  have hau : (C ++ '?' :: Q).takeWhile
      (fun c => !(c = '/' || c = '?' || c = '#' || (false && c = '\\'))) = C := by
    rw [takeWhile_append_all _ _ hCend, takeWhile_stop hqend, List.append_nil]
  have hrest : (C ++ '?' :: Q).dropWhile
      (fun c => !(c = '/' || c = '?' || c = '#' || (false && c = '\\'))) = '?' :: Q := by
    rw [dropWhile_append_all _ _ hCend, dropWhile_stop hqend]
  have h1 : splitLastAt '@' C = none :=
    splitLastAt_none '@' C (fun c hc => (hC c hc).2.2.2.1)
  have h2 : splitFirstAt ':' C = (C, none) :=
    splitFirstAt_none ':' C (fun c hc => (hC c hc).2.2.2.2.1)
  have h3 : hostNonSpecial C = .ok C :=
    hostNonSpecial_ok C (fun c hc => (hC c hc).2.2.2.2.2)
  have h4 : parsePort [] = .ok (none : Option Nat) := rfl
  unfold parseAuthorityRest
  simp only [hau, hrest, h1, h2, Option.getD_none, h4, Bool.false_eq_true, if_false, h3]
  rw [if_neg hCne]
  have hite : (if (none : Option Nat) = defaultPort scheme then (none : Option Nat)
      else none) = none := by split <;> rfl
  simp only [hite, Option.map_none', Option.isSome_none, Bool.or_self, if_false]
  rw [finishUrl_query scheme (some ⟨C⟩) Q hQ]

theorem urlParse_generic (S C Q : List Char) (c0 : Char) (S' : List Char)
    (hS0 : S = c0 :: S') (hS0a : isAsciiAlpha c0 = true)
    (hS : ∀ c ∈ S, isSchemeChar c = true ∧ 0x20 < c.toNat ∧ lowerChar c = c)
    (hSns : isSpecial ⟨S⟩ = false)
    (hCne : C ≠ [])
    (hC : ∀ c ∈ C, 0x20 < c.toNat ∧ c ≠ '/' ∧ c ≠ '?' ∧ c ≠ '#' ∧ c ≠ '@' ∧
      c ≠ ':' ∧ forbiddenHostChar c = false ∧ mustEncodeBase c = false)
    (hQ : ∀ c ∈ Q, 0x20 < c.toNat ∧ queryEncodeSet false c = false ∧ c ≠ '#') :
    urlParse ⟨S ++ ':' :: '/' :: '/' :: (C ++ '?' :: Q)⟩ =
      .ok ⟨⟨S⟩, none, some ⟨C⟩, none, "", some ⟨Q⟩, none⟩ := by
  have hpre : preprocess (S ++ ':' :: '/' :: '/' :: (C ++ '?' :: Q)) =
      S ++ ':' :: '/' :: '/' :: (C ++ '?' :: Q) := by
    apply preprocess_id
    intro c hc
    rcases List.mem_append.mp hc with hc1 | hc2
    · exact (hS c hc1).2.1
    · simp only [List.mem_cons] at hc2
      rcases hc2 with rfl | rfl | rfl | hc3
      · decide
      · decide
      · decide
      · rcases List.mem_append.mp hc3 with hc4 | hc5
        · exact (hC c hc4).1
        · simp only [List.mem_cons] at hc5
          rcases hc5 with rfl | hc6
          · decide
          · exact (hQ c hc6).1
  have hspan : schemeSpan (S ++ ':' :: '/' :: '/' :: (C ++ '?' :: Q)) =
      some (S, '/' :: '/' :: (C ++ '?' :: Q)) :=
    schemeSpan_token S _ c0 S' hS0 hS0a (fun c hc => (hS c hc).1)
  have hmap : S.map lowerChar = S := map_id_of lowerChar S (fun c hc => (hS c hc).2.2)
  unfold urlParse
  simp only [hpre, hspan, hmap, hSns, Bool.false_eq_true, if_false]
  exact parseAuthorityRest_basic ⟨S⟩ C Q hCne (fun c hc => (hC c hc).2)
    (fun c hc => ⟨(hQ c hc).2.1, (hQ c hc).2.2⟩)

/-! ## Query-pair lemmas for the canonical form -/

theorem formDecode_clean (l : List Char)
    (h : ∀ c ∈ l, c.toNat < 0x80 ∧ c.toNat ≠ 0x25 ∧ c ≠ '+') :
    formDecode l = ⟨l⟩ := by
  unfold formDecode
  rw [map_id_of _ _ (fun c hc => by rw [if_neg (h c hc).2.2])]
  rw [utf8Encode_ascii _ (fun c hc => (h c hc).1)]
  rw [pctDecodeScan_no _ (by
    intro b hb
    obtain ⟨c, hc, rfl⟩ := List.mem_map.mp hb
    exact (h c hc).2.1)]
  rw [utf8DecodeLossy_asciiMap _ (fun c hc => (h c hc).1)]

theorem formPair_keyval (k v : List Char)
    (hk : ∀ c ∈ k, c ≠ '=' ∧ c.toNat < 0x80 ∧ c.toNat ≠ 0x25 ∧ c ≠ '+')
    (hv : ∀ c ∈ v, c.toNat < 0x80 ∧ c.toNat ≠ 0x25 ∧ c ≠ '+') :
    formPair (k ++ '=' :: v) = (⟨k⟩, ⟨v⟩) := by
  have heq : (fun c => decide (c ≠ '=')) '=' = false := by decide
  have hkeq : ∀ c ∈ k, (fun c => decide (c ≠ '=')) c = true :=
    fun c hc => decide_eq_true (hk c hc).1
  have hsf : splitFirstAt '=' (k ++ '=' :: v) = (k, some v) := by
    unfold splitFirstAt
    rw [dropWhile_append_all _ _ hkeq, dropWhile_stop heq,
      takeWhile_append_all _ _ hkeq, takeWhile_stop heq, List.append_nil]
  unfold formPair
  rw [hsf]
  show (formDecode k, formDecode v) = _
  rw [formDecode_clean k (fun c hc => (hk c hc).2), formDecode_clean v hv]

theorem queryPairs_of_query (u : ModelUrl) (q : List Char) (h : u.query = some ⟨q⟩) :
    queryPairs u = ((splitSep '&' q).filter (· ≠ [])).map formPair := by
  unfold queryPairs
  rw [h]

theorem benignUrl_clean (c : Char) (h : benignUrlChar c = true) :
    c.toNat < 0x80 ∧ c.toNat ≠ 0x25 ∧ c ≠ '+' := by
  obtain ⟨-, -, -, -, -, -, -, h80, h25, h2B⟩ := benignUrl_scan c h
  exact ⟨h80, h25, char_ne_of_toNat_ne (by have e : ('+').toNat = 0x2B := rfl; omega)⟩

theorem benignVal_clean (c : Char) (h : benignValChar c = true) :
    c.toNat < 0x80 ∧ c.toNat ≠ 0x25 ∧ c ≠ '+' := by
  obtain ⟨-, -, -, -, -, -, -, h80, h25, h2B⟩ := benignVal_scan c h
  exact ⟨h80, h25, char_ne_of_toNat_ne (by have e : ('+').toNat = 0x2B := rfl; omega)⟩

theorem queryPairs_canonical (dl t f : List Char)
    (hdl : ∀ c ∈ dl, benignUrlChar c = true)
    (ht : ∀ c ∈ t, benignValChar c = true)
    (hf : ∀ c ∈ f, benignValChar c = true) :
    ((splitSep '&' (("url=".data ++ dl) ++ '&' ::
        (("type=".data ++ t) ++ '&' :: ("filename=".data ++ f)))).filter
      (· ≠ [])).map formPair =
      [("url", ⟨dl⟩), ("type", ⟨t⟩), ("filename", ⟨f⟩)] := by
  have hA : ∀ c ∈ "url=".data ++ dl, c ≠ '&' := by
    intro c hc
    rcases List.mem_append.mp hc with h1 | h2
    · have hk : ∀ x ∈ ("url=".data : List Char), x ≠ '&' := by decide
      exact hk c h1
    · exact (benignUrl_scan c (hdl c h2)).2.2.2.2.2.1
  have hB : ∀ c ∈ "type=".data ++ t, c ≠ '&' := by
    intro c hc
    rcases List.mem_append.mp hc with h1 | h2
    · have hk : ∀ x ∈ ("type=".data : List Char), x ≠ '&' := by decide
      exact hk c h1
    · exact (benignVal_scan c (ht c h2)).2.2.2.2.2.1
  have hC : ∀ c ∈ "filename=".data ++ f, c ≠ '&' := by
    intro c hc
    rcases List.mem_append.mp hc with h1 | h2
    · have hk : ∀ x ∈ ("filename=".data : List Char), x ≠ '&' := by decide
      exact hk c h1
    · exact (benignVal_scan c (hf c h2)).2.2.2.2.2.1
  rw [splitSep_append '&' _ _ hA, splitSep_append '&' _ _ hB,
    splitSep_no_sep '&' _ hC]
  rw [List.filter_eq_self.mpr ?_]
  · rw [List.map_cons, List.map_cons, List.map_cons, List.map_nil]
    rw [show ("url=".data ++ dl : List Char) = "url".data ++ '=' :: dl from rfl]
    rw [show ("type=".data ++ t : List Char) = "type".data ++ '=' :: t from rfl]
    rw [show ("filename=".data ++ f : List Char) = "filename".data ++ '=' :: f from rfl]
    rw [formPair_keyval _ _ (by decide) (fun c hc => benignUrl_clean c (hdl c hc)),
      formPair_keyval _ _ (by decide) (fun c hc => benignVal_clean c (ht c hc)),
      formPair_keyval _ _ (by decide) (fun c hc => benignVal_clean c (hf c hc))]
  · intro a ha
    simp only [List.mem_cons, List.not_mem_nil, or_false] at ha
    rcases ha with rfl | rfl | rfl
    · show decide ¬("url=".data ++ dl = []) = true
      simp [show ("url=".data ++ dl : List Char) = 'u' :: ("rl=".data ++ dl) from rfl]
    · show decide ¬("type=".data ++ t = []) = true
      simp [show ("type=".data ++ t : List Char) = 't' :: ("ype=".data ++ t) from rfl]
    · show decide ¬("filename=".data ++ f = []) = true
      simp [show ("filename=".data ++ f : List Char) = 'f' :: ("ilename=".data ++ f) from rfl]

theorem lookupLast_three (dl t f : String) :
    lookupLast [("url", dl), ("type", t), ("filename", f)] "url" = some dl ∧
      lookupLast [("url", dl), ("type", t), ("filename", f)] "type" = some t ∧
      lookupLast [("url", dl), ("type", t), ("filename", f)] "filename" = some f := by
  refine ⟨?_, ?_, ?_⟩ <;> simp [lookupLast, List.filter]

/-! ## Unfolding lemmas for `check_url` -/

theorem check_url_eq_core (s d : String) (u : ModelUrl)
    (h1 : urlDecode s = some d) (h2 : urlParse d = .ok u) :
    check_url s = check_url_core u := by
  simp only [check_url, h1, h2]

theorem parseScheme_unknown (u : ModelUrl)
    (h1 : toLowerStr u.scheme ≠ "ocs") (h2 : toLowerStr u.scheme ≠ "ocss") :
    parseScheme u = .error (.UnexpectedOcsScheme (toLowerStr u.scheme)) := by
  simp only [parseScheme, if_neg h1, if_neg h2]

theorem parseCommand_missing (u : ModelUrl) (h : hostStr u = none) :
    parseCommand u = .error .NoOcsCommand := by
  simp only [parseCommand, h]

theorem parseCommand_unknown (u : ModelUrl) (h : String)
    (hh : hostStr u = some h)
    (h1 : toLowerStr h ≠ "download") (h2 : toLowerStr h ≠ "install") :
    parseCommand u = .error (.UnexpectedOcsCommand (toLowerStr h)) := by
  simp only [parseCommand, hh, if_neg h1, if_neg h2]

theorem parseDownloadUrl_missing (ps : List (String × String))
    (h : lookupLast ps "url" = none) :
    parseDownloadUrl ps = .error .NoDownloadUrl := by
  simp only [parseDownloadUrl, h]

theorem parseDownloadUrl_bad (ps : List (String × String)) (v : String)
    (e : UrlParseError) (h : lookupLast ps "url" = some v)
    (he : urlParse v = .error e) :
    parseDownloadUrl ps = .error (.UrlParsingError e) := by
  simp only [parseDownloadUrl, h, he]

theorem parseDownloadUrl_found (ps : List (String × String)) (v : String)
    (w : ModelUrl) (h : lookupLast ps "url" = some v) (hw : urlParse v = .ok w) :
    parseDownloadUrl ps = .ok w := by
  simp only [parseDownloadUrl, h, hw]

theorem parseInstallType_missing (ps : List (String × String))
    (h : lookupLast ps "type" = none) :
    parseInstallType ps = .error .NoInstallType := by
  simp only [parseInstallType, h]

theorem parseInstallType_found (ps : List (String × String)) (t : String)
    (h : lookupLast ps "type" = some t) : parseInstallType ps = .ok t := by
  simp only [parseInstallType, h]

theorem check_url_core_scheme_error (u : ModelUrl) (e : OcsParsingError)
    (h : parseScheme u = .error e) : check_url_core u = .error e := by
  simp only [check_url_core, h]

theorem check_url_core_command_error (u : ModelUrl) (sch : Scheme)
    (e : OcsParsingError) (hs : parseScheme u = .ok sch)
    (hc : parseCommand u = .error e) : check_url_core u = .error e := by
  simp only [check_url_core, hs, hc]

theorem check_url_core_url_error (u : ModelUrl) (sch : Scheme) (cmd : Command)
    (e : OcsParsingError) (hs : parseScheme u = .ok sch)
    (hc : parseCommand u = .ok cmd)
    (hd : parseDownloadUrl (queryPairs u) = .error e) :
    check_url_core u = .error e := by
  simp only [check_url_core, hs, hc, hd]

theorem check_url_core_type_error (u : ModelUrl) (sch : Scheme) (cmd : Command)
    (e : OcsParsingError) (hs : parseScheme u = .ok sch)
    (hc : parseCommand u = .ok cmd)
    (hd : (parseDownloadUrl (queryPairs u)).isOk = true)
    (ht : parseInstallType (queryPairs u) = .error e) :
    check_url_core u = .error e := by
  simp only [check_url_core, hs, hc]
  match hw : parseDownloadUrl (queryPairs u) with
  | .error e' => rw [hw] at hd; simp [Except.isOk, Except.toBool] at hd
  | .ok w => simp only [ht]

theorem check_url_core_ok (u : ModelUrl) (sch : Scheme) (cmd : Command)
    (w : ModelUrl) (t : String) (hs : parseScheme u = .ok sch)
    (hc : parseCommand u = .ok cmd)
    (hd : parseDownloadUrl (queryPairs u) = .ok w)
    (ht : parseInstallType (queryPairs u) = .ok t) :
    check_url_core u =
      .ok ⟨u, sch, cmd, w, t, lookupLast (queryPairs u) "filename"⟩ := by
  simp only [check_url_core, hs, hc, hd, ht]

/-- C1: for the canonical link, `check_url` succeeds and rendering the
resulting `ParsedOcsUrl` via `Display` reproduces the input byte-for-byte. -/
theorem c1_canonical_roundtrip :
    check_url canonicalLink = .ok canonicalParsed ∧
      render canonicalParsed = canonicalLink := by
  constructor <;> decide

/-- C4: the repository's own test `some_try_from_action` asserts
`Styling::try_from("xfwm4_themes") == Ok(Themes)` (same for
`"openbox_themes"`), but the `TryFrom` implementation has no such match arm:
both alias tokens are rejected with `NoMatchingInstallType`, and only the
plain `"themes"` token resolves to `Themes`. -/
theorem c4_styling_aliases_missing :
    Styling.try_from "xfwm4_themes" =
        .error (.NoMatchingInstallType "xfwm4_themes") ∧
      Styling.try_from "openbox_themes" =
        .error (.NoMatchingInstallType "openbox_themes") ∧
      Styling.try_from "themes" = .ok .Themes := by
  refine ⟨?_, ?_, ?_⟩ <;> decide

/-- C5 counterexample: a percent-encoded `&` (`%26`) inside the `type` value
is decoded before URI parsing, so it *does* act as a query-string separator:
the parsed `install_type` is `"a"`, not the claimed `"a&b"`. -/
theorem c5_counterexample :
    (check_url "ocs://install?url=https%3A%2F%2Ffake.download%2Fa.png&type=a%26b").map
        (fun p => p.install_type) = .ok "a" ∧
      (check_url "ocs://install?url=https%3A%2F%2Ffake.download%2Fa.png&type=a%26b").map
        (fun p => p.install_type) ≠ .ok "a&b" := by
  constructor <;> decide

/-- C5 amended: percent-decoding is applied to the whole input before URI
parsing, so a percent-encoded delimiter in a query value becomes structural
(`%26` truncates the `type` value at the decoded `&`); passing a literal
delimiter as data requires double encoding (`%2526` yields `a&b`, decoded
once by `urlencoding::decode` and once by `query_pairs`). -/
theorem c5_amended :
    (check_url "ocs://install?url=https%3A%2F%2Ffake.download%2Fa.png&type=a%26b").map
        (fun p => p.install_type) = .ok "a" ∧
      (check_url "ocs://install?url=https%3A%2F%2Ffake.download%2Fa.png&type=a%2526b").map
        (fun p => p.install_type) = .ok "a&b" := by
  constructor <;> decide

/-- C6 counterexample: on the canonical link the stored `ocs_url` field is
the *percent-decoded, URL-normalised* form of the input, not the original
input string. -/
theorem c6_counterexample :
    (check_url canonicalLink).map (fun p => p.ocs_url.serialize) =
        .ok canonicalDecoded ∧
      canonicalDecoded ≠ canonicalLink := by
  constructor <;> decide

/-- C6 amended: on every successful parse the stored `ocs_url` field is the
`Url` parsed from the percent-decoded input (the normalised form of the
input); for the canonical link its serialisation is the decoded string. -/
theorem c6_amended :
    (∀ (s d : String) (u : ModelUrl) (p : ParsedOcsUrl),
        urlDecode s = some d → urlParse d = .ok u → check_url s = .ok p →
        p.ocs_url = u) ∧
      (check_url canonicalLink).map (fun p => p.ocs_url.serialize) =
        .ok canonicalDecoded := by
  constructor
  · intro s d u p h1 h2 h3
    rw [check_url_eq_core s d u h1 h2] at h3
    unfold check_url_core at h3
    dsimp only [] at h3
    repeat' split at h3
    all_goals try (injection h3 with h4; exact h4 ▸ rfl)
    all_goals injection h3
  · decide

/-- C6 amended witness: the amended statement applied to the canonical
link. -/
theorem c6_amended_witness : canonicalParsed.ocs_url = canonicalOcsUrl :=
  c6_amended.1 canonicalLink canonicalDecoded canonicalOcsUrl canonicalParsed
    (by decide) (by decide) (by decide)

/-- C3 counterexample: for a mixed-case unrecognised scheme the error does
*not* carry the original token text — the `url` crate lower-cases the scheme
during parsing, so `UnexpectedOcsScheme` carries the lower-cased token. -/
theorem c3_counterexample :
    check_url "ABC://download?url=https%3A%2F%2Fnormal.link%2Fwith_thing.mp3&type=music" =
        .error (.UnexpectedOcsScheme "abc") ∧
      OcsParsingError.UnexpectedOcsScheme "abc" ≠ .UnexpectedOcsScheme "ABC" := by
  constructor <;> decide

/-- C3 amended: for every input that decodes and URL-parses successfully but
whose (parser-lower-cased) scheme is neither `ocs` nor `ocss`, `check_url`
fails with `UnexpectedOcsScheme` carrying the lower-cased scheme token; for
the already-lower-case example `abc://download?…&type=music` the token
`abc` is carried unmodified. -/
theorem c3_amended :
    (∀ (s d : String) (u : ModelUrl),
        urlDecode s = some d → urlParse d = .ok u →
        toLowerStr u.scheme ≠ "ocs" → toLowerStr u.scheme ≠ "ocss" →
        check_url s = .error (.UnexpectedOcsScheme (toLowerStr u.scheme))) ∧
      check_url "abc://download?url=https%3A%2F%2Fnormal.link%2Fwith_thing.mp3&type=music" =
        .error (.UnexpectedOcsScheme "abc") := by
  constructor
  · intro s d u h1 h2 hn1 hn2
    rw [check_url_eq_core s d u h1 h2]
    exact check_url_core_scheme_error u _ (parseScheme_unknown u hn1 hn2)
  · decide

/-- C3 amended witness: the universal part applied to the degenerate link
`sduigh:sdiguhcc8////s::;dij` of the specification. -/
theorem c3_amended_witness :
    check_url "sduigh:sdiguhcc8////s::;dij" =
      .error (.UnexpectedOcsScheme (toLowerStr "sduigh")) :=
  c3_amended.1 "sduigh:sdiguhcc8////s::;dij" "sduigh:sdiguhcc8////s::;dij"
    ⟨"sduigh", none, none, none, "sdiguhcc8////s::;dij", none, none⟩
    (by decide) (by decide) (by decide) (by decide)

/-- C7: for every input that decodes, URL-parses, and passes scheme and
command validation: a missing `url` key fails with `NoDownloadUrl`; a `url`
value that does not itself URL-parse (e.g. the empty value) fails with the
propagated URI syntax error; a present, parsable `url` but missing `type`
key fails with `NoInstallType`. -/
theorem c7_required_fields :
    ∀ (s d : String) (u : ModelUrl) (sch : Scheme) (cmd : Command),
      urlDecode s = some d → urlParse d = .ok u →
      parseScheme u = .ok sch → parseCommand u = .ok cmd →
      (lookupLast (queryPairs u) "url" = none →
        check_url s = .error .NoDownloadUrl) ∧
      (∀ (v : String) (e : UrlParseError),
        lookupLast (queryPairs u) "url" = some v → urlParse v = .error e →
        check_url s = .error (.UrlParsingError e)) ∧
      (∀ (v : String) (w : ModelUrl),
        lookupLast (queryPairs u) "url" = some v → urlParse v = .ok w →
        lookupLast (queryPairs u) "type" = none →
        check_url s = .error .NoInstallType) := by
  intro s d u sch cmd h1 h2 hs hc
  refine ⟨?_, ?_, ?_⟩
  · intro hu
    rw [check_url_eq_core s d u h1 h2]
    exact check_url_core_url_error u sch cmd _ hs hc (parseDownloadUrl_missing _ hu)
  · intro v e hv he
    rw [check_url_eq_core s d u h1 h2]
    exact check_url_core_url_error u sch cmd _ hs hc (parseDownloadUrl_bad _ v e hv he)
  · intro v w hv hw ht
    rw [check_url_eq_core s d u h1 h2]
    exact check_url_core_type_error u sch cmd _ hs hc
      (by rw [parseDownloadUrl_found _ v w hv hw]; rfl)
      (parseInstallType_missing _ ht)

/-- C7 witness: the three branches at concrete inputs — `url` omitted,
`url` empty, `type` omitted. -/
theorem c7_required_fields_witness :
    check_url "ocs://install?type=music" = .error .NoDownloadUrl ∧
      check_url "ocs://install?url=&type=music" =
        .error (.UrlParsingError .RelativeUrlWithoutBase) ∧
      check_url "ocs://install?url=https%3A%2F%2Fa.b" = .error .NoInstallType :=
  ⟨(c7_required_fields "ocs://install?type=music" "ocs://install?type=music"
      ⟨"ocs", none, some "install", none, "", some "type=music", none⟩ .Ocs .Install
      (by decide) (by decide) (by decide) (by decide)).1 (by decide),
   (c7_required_fields "ocs://install?url=&type=music" "ocs://install?url=&type=music"
      ⟨"ocs", none, some "install", none, "", some "url=&type=music", none⟩ .Ocs .Install
      (by decide) (by decide) (by decide) (by decide)).2.1 "" .RelativeUrlWithoutBase
      (by decide) (by decide),
   (c7_required_fields "ocs://install?url=https%3A%2F%2Fa.b" "ocs://install?url=https://a.b"
      ⟨"ocs", none, some "install", none, "", some "url=https://a.b", none⟩ .Ocs .Install
      (by decide) (by decide) (by decide) (by decide)).2.2 "https://a.b"
      ⟨"https", none, some "a.b", none, "/", none, none⟩
      (by decide) (by decide) (by decide)⟩

/-- C8 counterexample: an empty command string does *not* fail with a
structural URL error — rust-url parses an empty non-special host
successfully and reports it as absent, so `check_url` fails with
`NoOcsCommand` (`MissingCommand`), which is neither a `UrlParsingError`
nor a decode error. -/
theorem c8_counterexample :
    check_url "ocs://?url=https%3A%2F%2Ffake.download%2Flocation.png&type=plasma_look_and_feel&filename=location55.png" =
        .error .NoOcsCommand ∧
      (∀ e : UrlParseError, OcsParsingError.NoOcsCommand ≠ .UrlParsingError e) ∧
      OcsParsingError.NoOcsCommand ≠ .UrlDecodeError := by
  refine ⟨by decide, fun e h => ?_, by decide⟩
  cases h

/-- C8 amended: for every input that decodes, URL-parses, and passes scheme
validation: an absent host (including rust-url's empty-host-as-absent case)
fails with `NoOcsCommand`; a present host whose lower-casing is neither
`download` nor `install` fails with `UnexpectedOcsCommand` carrying the
lower-cased host token; in particular the empty-command link fails with
`NoOcsCommand`, not with a structural error. -/
theorem c8_amended :
    (∀ (s d : String) (u : ModelUrl) (sch : Scheme),
        urlDecode s = some d → urlParse d = .ok u → parseScheme u = .ok sch →
        (hostStr u = none → check_url s = .error .NoOcsCommand) ∧
        (∀ h : String, hostStr u = some h →
          toLowerStr h ≠ "download" → toLowerStr h ≠ "install" →
          check_url s = .error (.UnexpectedOcsCommand (toLowerStr h)))) ∧
      check_url "ocs://?url=https%3A%2F%2Ffake.download%2Flocation.png&type=plasma_look_and_feel&filename=location55.png" =
        .error .NoOcsCommand := by
  constructor
  · intro s d u sch h1 h2 hs
    constructor
    · intro hh
      rw [check_url_eq_core s d u h1 h2]
      exact check_url_core_command_error u sch _ hs (parseCommand_missing u hh)
    · intro h hh hn1 hn2
      rw [check_url_eq_core s d u h1 h2]
      exact check_url_core_command_error u sch _ hs (parseCommand_unknown u h hh hn1 hn2)
  · decide

/-- C8 amended witness: the two universal branches at concrete inputs —
a link with no authority at all (`ocs:install?…`), and a link whose
mixed-case command `ABC` is carried lower-cased. -/
theorem c8_amended_witness :
    check_url "ocs:install?url=https%3A%2F%2Fa.b&type=music" =
        .error .NoOcsCommand ∧
      check_url "ocs://ABC?url=https%3A%2F%2Fa.b&type=music" =
        .error (.UnexpectedOcsCommand (toLowerStr "ABC")) :=
  ⟨(c8_amended.1 "ocs:install?url=https%3A%2F%2Fa.b&type=music"
      "ocs:install?url=https://a.b&type=music"
      ⟨"ocs", none, none, none, "install", some "url=https://a.b&type=music", none⟩ .Ocs
      (by decide) (by decide) (by decide)).1 (by decide),
   (c8_amended.1 "ocs://ABC?url=https%3A%2F%2Fa.b&type=music"
      "ocs://ABC?url=https://a.b&type=music"
      ⟨"ocs", none, some "ABC", none, "", some "url=https://a.b&type=music", none⟩ .Ocs
      (by decide) (by decide) (by decide)).2 "ABC" (by decide) (by decide) (by decide)⟩

/-- C9: the `filename` key is optional and an empty value is accepted:
omission yields `None`, `filename=` yields `Some("")`; rendering appends the
`&filename=` segment exactly when the field is present (including empty) and
emits the filename raw (`a/b` stays `a/b`) while the download URL is
re-encoded (`%2F`). -/
theorem c9_filename_optional :
    (check_url "ocs://install?url=https%3A%2F%2Ffake.download%2Flocation.png&type=t").map
        (fun p => (p.filename, render p)) =
      .ok (none, "ocs://install?url=https%3A%2F%2Ffake.download%2Flocation.png&type=t") ∧
    (check_url "ocs://install?url=https%3A%2F%2Ffake.download%2Flocation.png&type=t&filename=").map
        (fun p => (p.filename, render p)) =
      .ok (some "", "ocs://install?url=https%3A%2F%2Ffake.download%2Flocation.png&type=t&filename=") ∧
    (check_url "ocs://install?url=https%3A%2F%2Ffake.download%2Flocation.png&type=t&filename=a%2Fb").map
        (fun p => (p.filename, render p)) =
      .ok (some "a/b", "ocs://install?url=https%3A%2F%2Ffake.download%2Flocation.png&type=t&filename=a/b") ∧
    (∀ (p : ParsedOcsUrl) (f : String),
        render { p with filename := some f } =
          render { p with filename := none } ++ "&filename=" ++ f) := by
  refine ⟨by decide, by decide, by decide, fun p f => ?_⟩
  simp only [render, String.append_empty, String.append_assoc]

/-- C10: `PersonalMedia::try_from` is case-insensitive — its result depends
only on the lower-cased token (`bin`/`music`/`pictures` resolve in any
casing; `farts` fails with `NoMatchingInstallType`); `Styling::try_from` is
case-sensitive — for every recognised token, every differently-cased variant
fails with `NoMatchingInstallType`. -/
theorem c10_case_sensitivity :
    (∀ s t : String, toLowerStr s = toLowerStr t →
        PersonalMedia.try_from s = PersonalMedia.try_from t) ∧
    PersonalMedia.try_from "BIN" = .ok .Bin ∧
    PersonalMedia.try_from "Music" = .ok .Music ∧
    PersonalMedia.try_from "PICTURES" = .ok .Pictures ∧
    PersonalMedia.try_from "bin" = .ok .Bin ∧
    PersonalMedia.try_from "music" = .ok .Music ∧
    PersonalMedia.try_from "pictures" = .ok .Pictures ∧
    PersonalMedia.try_from "farts" = .error (.NoMatchingInstallType "farts") ∧
    (∀ t t' : String, (Styling.try_from t).isOk = true →
        toLowerStr t' = toLowerStr t → t' ≠ t →
        Styling.try_from t' = .error (.NoMatchingInstallType t')) := by
  refine ⟨?_, by decide, by decide, by decide, by decide, by decide, by decide, by decide, ?_⟩
  · intro s t h
    unfold PersonalMedia.try_from
    rw [h]
  · intro t t' hok hlow hne
    have ht : t = "color_schemes" ∨ t = "cursors" ∨ t = "emoticons" ∨ t = "fonts" ∨
        t = "icons" ∨ t = "themes" := by
      unfold Styling.try_from at hok
      split_ifs at hok with h1 h2 h3 h4 h5 h6
      · exact .inl h1
      · exact .inr (.inl h2)
      · exact .inr (.inr (.inl h3))
      · exact .inr (.inr (.inr (.inl h4)))
      · exact .inr (.inr (.inr (.inr (.inl h5))))
      · exact .inr (.inr (.inr (.inr (.inr h6))))
      · simp [Except.isOk, Except.toBool] at hok
    unfold Styling.try_from
    split_ifs with g1 g2 g3 g4 g5 g6
    · exfalso; subst g1
      rcases ht with rfl | rfl | rfl | rfl | rfl | rfl <;>
        first | exact hne rfl | exact absurd hlow (by decide)
    · exfalso; subst g2
      rcases ht with rfl | rfl | rfl | rfl | rfl | rfl <;>
        first | exact hne rfl | exact absurd hlow (by decide)
    · exfalso; subst g3
      rcases ht with rfl | rfl | rfl | rfl | rfl | rfl <;>
        first | exact hne rfl | exact absurd hlow (by decide)
    · exfalso; subst g4
      rcases ht with rfl | rfl | rfl | rfl | rfl | rfl <;>
        first | exact hne rfl | exact absurd hlow (by decide)
    · exfalso; subst g5
      rcases ht with rfl | rfl | rfl | rfl | rfl | rfl <;>
        first | exact hne rfl | exact absurd hlow (by decide)
    · exfalso; subst g6
      rcases ht with rfl | rfl | rfl | rfl | rfl | rfl <;>
        first | exact hne rfl | exact absurd hlow (by decide)
    · rfl

/-- C10 witness: case-insensitivity of `PersonalMedia` applied at
`Bin`/`BIN`, and case-sensitivity of `Styling` applied at
`themes`/`Themes`. -/
theorem c10_witness :
    PersonalMedia.try_from "Bin" = PersonalMedia.try_from "BIN" ∧
      Styling.try_from "Themes" = .error (.NoMatchingInstallType "Themes") :=
  ⟨c10_case_sensitivity.1 "Bin" "BIN" (by decide),
   c10_case_sensitivity.2.2.2.2.2.2.2.2 "themes" "Themes" (by decide) (by decide)
     (by decide)⟩

/-- C2 counterexample: `check_url` accepts `extraParamLink`, whose query
carries an extraneous `extra=1` parameter.  `Display` only re-emits the
`url`/`type`/`filename` fields, so re-parsing the rendered string yields a
`ParsedOcsUrl` whose stored `ocs_url` lacks the extra parameter: the
round-trip result is not structurally equal to the first parse. -/
theorem c2_counterexample :
    check_url extraParamLink = .ok extraParamParsed ∧
      check_url (render extraParamParsed) = .ok extraParamReparsed ∧
      extraParamReparsed ≠ extraParamParsed := by
  refine ⟨by decide, by decide, by decide⟩

/-- C2 amended: for every canonical four-field input — any scheme and
command token, a download URL whose serialisation is `Url::parse`-stable
and made of benign URL characters, and benign `type` and `filename` values,
with no extraneous query parameters — `check_url` succeeds, `Display`
reproduces the input byte-for-byte, and re-parsing the rendered string
yields a structurally equal `ParsedOcsUrl`. -/
theorem c2_amended (sch : Scheme) (cmd : Command) (dl t f : String)
    (w : ModelUrl) (hw : urlParse dl = .ok w) (hser : w.serialize = dl)
    (hdl : ∀ c ∈ dl.data, benignUrlChar c = true)
    (ht : ∀ c ∈ t.data, benignValChar c = true)
    (hf : ∀ c ∈ f.data, benignValChar c = true) :
    ∃ p : ParsedOcsUrl,
      check_url (sch.str ++ "://" ++ cmd.str ++ "?url=" ++ pctEncode dl ++
          "&type=" ++ t ++ "&filename=" ++ f) = .ok p ∧
        render p = sch.str ++ "://" ++ cmd.str ++ "?url=" ++ pctEncode dl ++
          "&type=" ++ t ++ "&filename=" ++ f ∧
        check_url (render p) = .ok p := by
  obtain ⟨c0, S', hS0, hS0a⟩ :
      ∃ c0 S', (sch.str).data = c0 :: S' ∧ isAsciiAlpha c0 = true := by
    cases sch
    · exact ⟨'o', ['c', 's'], rfl, by decide⟩
    · exact ⟨'o', ['c', 's', 's'], rfl, by decide⟩
  have hSall : ∀ c ∈ (sch.str).data,
      isSchemeChar c = true ∧ 0x20 < c.toNat ∧ lowerChar c = c := by
    cases sch <;> decide
  have hSns : isSpecial ⟨(sch.str).data⟩ = false := by cases sch <;> decide
  have hCne : (cmd.str).data ≠ [] := by cases cmd <;> decide
  have hCall : ∀ c ∈ (cmd.str).data, 0x20 < c.toNat ∧ c ≠ '/' ∧ c ≠ '?' ∧
      c ≠ '#' ∧ c ≠ '@' ∧ c ≠ ':' ∧ forbiddenHostChar c = false ∧
      mustEncodeBase c = false := by
    cases cmd <;> decide
  have hQall : ∀ c ∈ canonQ dl t f,
      0x20 < c.toNat ∧ queryEncodeSet false c = false ∧ c ≠ '#' := by
    intro c hc
    simp only [canonQ] at hc
    rcases List.mem_append.mp hc with h1 | h2
    · rcases List.mem_append.mp h1 with h3 | h4
      · exact (by decide : ∀ x ∈ ("url=" : String).data,
          0x20 < x.toNat ∧ queryEncodeSet false x = false ∧ x ≠ '#') c h3
      · exact ⟨(benignUrl_props c (hdl c h4)).1,
          (benignUrl_scan c (hdl c h4)).2.2.1, (benignUrl_scan c (hdl c h4)).2.2.2.1⟩
    · rcases List.mem_cons.mp h2 with rfl | h3
      · decide
      · rcases List.mem_append.mp h3 with h4 | h5
        · rcases List.mem_append.mp h4 with h6 | h7
          · exact (by decide : ∀ x ∈ ("type=" : String).data,
              0x20 < x.toNat ∧ queryEncodeSet false x = false ∧ x ≠ '#') c h6
          · exact ⟨(benignVal_props c (ht c h7)).1,
              (benignVal_scan c (ht c h7)).2.2.1, (benignVal_scan c (ht c h7)).2.2.2.1⟩
        · rcases List.mem_cons.mp h5 with rfl | h6
          · decide
          · rcases List.mem_append.mp h6 with h7 | h8
            · exact (by decide : ∀ x ∈ ("filename=" : String).data,
                0x20 < x.toNat ∧ queryEncodeSet false x = false ∧ x ≠ '#') c h7
            · exact ⟨(benignVal_props c (hf c h8)).1,
                (benignVal_scan c (hf c h8)).2.2.1, (benignVal_scan c (hf c h8)).2.2.2.1⟩
  have hscheme : parseScheme (canonU sch cmd dl t f) = .ok sch := by
    cases sch <;> rfl
  have hcmd : parseCommand (canonU sch cmd dl t f) = .ok cmd := by
    cases cmd <;> rfl
  obtain ⟨l1, l2, l3⟩ := lookupLast_three dl t f
  have hqp : queryPairs (canonU sch cmd dl t f) =
      [("url", dl), ("type", t), ("filename", f)] := by
    rw [queryPairs_of_query _ (canonQ dl t f) rfl]
    exact queryPairs_canonical dl.data t.data f.data hdl ht hf
  have hdownload : parseDownloadUrl (queryPairs (canonU sch cmd dl t f)) = .ok w :=
    parseDownloadUrl_found _ dl w (by rw [hqp]; exact l1) hw
  have htype2 : parseInstallType (queryPairs (canonU sch cmd dl t f)) = .ok t :=
    parseInstallType_found _ t (by rw [hqp]; exact l2)
  have hfile : lookupLast (queryPairs (canonU sch cmd dl t f)) "filename" = some f := by
    rw [hqp]; exact l3
  have hcore := check_url_core_ok (canonU sch cmd dl t f) sch cmd w t
    hscheme hcmd hdownload htype2
  rw [hfile] at hcore
  have hx : ∀ c ∈ (sch.str ++ "://" ++ cmd.str ++ "?url=").data,
      c.toNat < 0x80 ∧ c.toNat ≠ 0x25 := by
    cases sch <;> cases cmd <;> decide
  have hy : ∀ c ∈ ("&type=" ++ t ++ ("&filename=" ++ f)).data,
      c.toNat < 0x80 ∧ c.toNat ≠ 0x25 := by
    intro c hc
    simp only [String.data_append, List.append_assoc, List.mem_append] at hc
    rcases hc with hc | hc | hc | hc
    · exact (by decide : ∀ x ∈ ("&type=" : String).data,
        x.toNat < 0x80 ∧ x.toNat ≠ 0x25) c hc
    · exact ⟨(benignVal_scan c (ht c hc)).2.2.2.2.2.2.2.1,
        (benignVal_scan c (ht c hc)).2.2.2.2.2.2.2.2.1⟩
    · exact (by decide : ∀ x ∈ ("&filename=" : String).data,
        x.toNat < 0x80 ∧ x.toNat ≠ 0x25) c hc
    · exact ⟨(benignVal_scan c (hf c hc)).2.2.2.2.2.2.2.1,
        (benignVal_scan c (hf c hc)).2.2.2.2.2.2.2.2.1⟩
  have hdl80 : ∀ c ∈ dl.data, c.toNat < 0x80 :=
    fun c hc => (benignUrl_scan c (hdl c hc)).2.2.2.2.2.2.2.1
  have hdec := urlDecode_split (sch.str ++ "://" ++ cmd.str ++ "?url=")
    ("&type=" ++ t ++ ("&filename=" ++ f)) dl hx hy hdl80
  have hshape : (sch.str ++ "://" ++ cmd.str ++ "?url=" ++ pctEncode dl ++
      "&type=" ++ t ++ "&filename=" ++ f) =
      (sch.str ++ "://" ++ cmd.str ++ "?url=") ++ pctEncode dl ++
        ("&type=" ++ t ++ ("&filename=" ++ f)) := by
    apply String.ext
    simp [String.data_append, List.append_assoc]
  have e1 : ("://" : String).data = [':', '/', '/'] := rfl
  have e2 : ("?url=" : String).data = ['?', 'u', 'r', 'l', '='] := rfl
  have e3 : ("&type=" : String).data = ['&', 't', 'y', 'p', 'e', '='] := rfl
  have e4 : ("&filename=" : String).data =
    ['&', 'f', 'i', 'l', 'e', 'n', 'a', 'm', 'e', '='] := rfl
  have e5 : ("url=" : String).data = ['u', 'r', 'l', '='] := rfl
  have e6 : ("type=" : String).data = ['t', 'y', 'p', 'e', '='] := rfl
  have e7 : ("filename=" : String).data =
    ['f', 'i', 'l', 'e', 'n', 'a', 'm', 'e', '='] := rfl
  have hD : ((sch.str ++ "://" ++ cmd.str ++ "?url=") ++ dl ++
      ("&type=" ++ t ++ ("&filename=" ++ f))) =
      ⟨(sch.str).data ++ ':' :: '/' :: '/' ::
        ((cmd.str).data ++ '?' :: canonQ dl t f)⟩ := by
    apply String.ext
    cases sch <;> cases cmd <;>
      simp [Scheme.str, Command.str, canonQ, String.data_append,
        List.append_assoc, e1, e2, e3, e4, e5, e6, e7]
  have hdec2 : urlDecode (sch.str ++ "://" ++ cmd.str ++ "?url=" ++
      pctEncode dl ++ "&type=" ++ t ++ "&filename=" ++ f) =
      some ⟨(sch.str).data ++ ':' :: '/' :: '/' ::
        ((cmd.str).data ++ '?' :: canonQ dl t f)⟩ := by
    rw [hshape, hdec, hD]
  have hparse2 : urlParse ⟨(sch.str).data ++ ':' :: '/' :: '/' ::
      ((cmd.str).data ++ '?' :: canonQ dl t f)⟩ = .ok (canonU sch cmd dl t f) :=
    urlParse_generic (sch.str).data (cmd.str).data (canonQ dl t f) c0 S'
      hS0 hS0a hSall hSns hCne hCall hQall
  have hcheck : check_url (sch.str ++ "://" ++ cmd.str ++ "?url=" ++
      pctEncode dl ++ "&type=" ++ t ++ "&filename=" ++ f) =
      .ok ⟨canonU sch cmd dl t f, sch, cmd, w, t, some f⟩ := by
    rw [check_url_eq_core _ _ (canonU sch cmd dl t f) hdec2 hparse2]
    exact hcore
  have hrender : render ⟨canonU sch cmd dl t f, sch, cmd, w, t, some f⟩ =
      sch.str ++ "://" ++ cmd.str ++ "?url=" ++ pctEncode dl ++
        "&type=" ++ t ++ "&filename=" ++ f := by
    show sch.str ++ "://" ++ cmd.str ++ "?url=" ++ pctEncode w.serialize ++
      "&type=" ++ t ++ ("&filename=" ++ f) = _
    rw [hser]
    apply String.ext
    simp [String.data_append, List.append_assoc]
  refine ⟨⟨canonU sch cmd dl t f, sch, cmd, w, t, some f⟩, hcheck, hrender, ?_⟩
  rw [hrender]
  exact hcheck

/-- C2 witness: the amended round-trip applied to the canonical link's
scheme, command, download URL, install type and filename. -/
theorem c2_amended_witness :
    ∃ p : ParsedOcsUrl,
      check_url (Scheme.Ocs.str ++ "://" ++ Command.Install.str ++ "?url=" ++
          pctEncode "https://fake.download/location.png" ++ "&type=" ++
          "plasma_look_and_feel" ++ "&filename=" ++ "location55.png") = .ok p ∧
        render p = Scheme.Ocs.str ++ "://" ++ Command.Install.str ++ "?url=" ++
          pctEncode "https://fake.download/location.png" ++ "&type=" ++
          "plasma_look_and_feel" ++ "&filename=" ++ "location55.png" ∧
        check_url (render p) = .ok p :=
  c2_amended .Ocs .Install "https://fake.download/location.png"
    "plasma_look_and_feel" "location55.png" fakeDownloadUrl
    (by decide) (by decide) (by decide) (by decide) (by decide)

end Amizade
